import Mathlib

/-!
# Verification of the nachat Matrix room-state engine

Shallow embedding of `src/matrix/Room.cpp` (class `RoomState`, class `Room`)
and `src/matrix/Member.hpp`.  QString values are modeled as `String`, with the
QString null/empty distinction modeled as `Option String` exactly where the
source distinguishes them (`isNull` in `RoomState::to_json`).  `std::map` /
`std::unordered_map` keyed by strings are modeled as functions
`String → Option _`; containers whose iteration order the code relies on
(bucket vectors, the receipt maps that are serialized) are modeled as lists.
C++ exceptions (`std::map::at`, failed `assert`) are modeled by returning
`none` from an `Option`-valued function.  Unicode NFC normalization is kept
abstract: every operation takes the normalization function `nfc` as an
explicit parameter.

Qt signal emissions are modeled as an observation list (`Obs`) returned next
to the new state; the nullable `Room*` callback parameter is modeled as
`Option RoomCtx`.  LMDB writes performed by `RoomState::update_membership` do
not affect the in-memory snapshot and are not part of the returned state; the
member database contents appear explicitly as a list in the serialization
theorems.
-/

namespace matrix

/-- `enum class Membership` from `Member.hpp`. -/
inductive Membership where
  | INVITE
  | JOIN
  | LEAVE
  | BAN
deriving DecidableEq, Repr

/-- `parse_membership` (declared in `Member.hpp`): the strings
`"invite"|"join"|"leave"|"ban"` parse; everything else is rejected. -/
def parse_membership (m : String) : Option Membership :=
  if m = "invite" then some .INVITE
  else if m = "join" then some .JOIN
  else if m = "leave" then some .LEAVE
  else if m = "ban" then some .BAN
  else none

/-- `membership_displayable` from `Member.hpp`: Join or Invite. -/
def membership_displayable : Membership → Bool
  | .JOIN => true
  | .INVITE => true
  | _ => false

/-- `class Member` from `Member.hpp`.  `display_name` and `avatar_url` are
optional; the empty string models an absent (null or empty) QString, matching
the `isEmpty` tests the code performs on them. -/
structure Member where
  id : String
  display_name : String
  avatar_url : String
  membership : Membership
deriving DecidableEq, Repr

/-- `Member::pretty_name`: `display_name_.isEmpty() ? id_ : display_name_`. -/
def Member.pretty_name (m : Member) : String :=
  if m.display_name = "" then m.id else m.display_name

/-- Event / member content object.  A `QJsonObject` restricted to the fields
the engine reads; `none` models an absent (or non-string) field, on which
`QJsonValue::toString()` yields a null QString.  `read` carries the
`m.receipt` payload (event id ↦ list of (user, ts) under `m.read`). -/
structure Content where
  membership : Option String := none
  displayname : Option String := none
  avatar_url : Option String := none
  aliases : Option (List String) := none
  room_alias : Option String := none
  name : Option String := none
  topic : Option String := none
  url : Option String := none
  user_ids : Option (List String) := none
  read : List (String × List (String × Nat)) := []
deriving DecidableEq, Repr

/-- `QJsonObject::empty()` on a content object: no fields at all. -/
def Content.isEmpty (c : Content) : Bool :=
  c.membership = none ∧ c.displayname = none ∧ c.avatar_url = none ∧
  c.aliases = none ∧ c.room_alias = none ∧ c.name = none ∧ c.topic = none ∧
  c.url = none ∧ c.user_ids = none ∧ c.read = []

/-- Modelled from the spec: `Member::update_membership(content)`
(`Member.cpp` is not under `src/`; §4.1 of the spec: it "overwrites
`display_name`, `avatar_url`, and `membership` from the given object (fields
absent in content clear the corresponding optional)"; empty content must give
the default `Leave` per §4.2). -/
def Member.update_membership (m : Member) (c : Content) : Member :=
  { m with
    display_name := c.displayname.getD ""
    avatar_url := c.avatar_url.getD ""
    membership := (parse_membership (c.membership.getD "")).getD .LEAVE }

/-- Modelled from the spec: construction of a `Member` from `(id, JSON)`
when loading the member database (`Member.cpp` is not under `src/`; §4.1:
"construct from (id, JSON object) initializing display name, avatar,
membership").  The database value is modeled as an already-parsed `Member`
record (member JSON round-trips identically), and the id is taken from the
database key as in `RoomState::RoomState`. -/
def Member.fromDb (key : String) (stored : Member) : Member :=
  { stored with id := key }

/-- `proto::Event`: the fields of the JSON event envelope the engine reads.
`prev_content` models `unsigned.prev_content`. -/
structure Event where
  type : String
  sender : String
  event_id : String
  state_key : String
  content : Content
  prev_content : Option Content := none
deriving DecidableEq, Repr

/-- The Qt signals `Room` emits, with the payloads the claims examine.
`memberDisambiguationChanged` and `memberNameChanged` carry the affected
member's id plus the old string. -/
inductive Obs where
  | memberDisambiguationChanged (id : String) (prev : String)
  | memberNameChanged (id : String) (oldName : String)
  | membershipChanged (id : String) (m : Membership)
  | left (m : Membership)
  | aliasesChanged
  | canonicalAliasChanged
  | nameChanged
  | topicChanged (old : Option String)
  | avatarChanged
deriving DecidableEq, Repr

/-- The data of the `Room *room` callback argument that
`RoomState::update_membership` actually reads: `room->id()`. -/
structure RoomCtx where
  room_id : String
deriving DecidableEq, Repr

/-- `class RoomState`.  `name_`, `canonical_alias_`, `topic_` are QStrings
whose null/empty distinction matters in `to_json`, hence `Option String`;
`avatar_` is a `QUrl` modeled by its string, empty = unset.  `departed_` uses
`""` for the empty QString. -/
structure RoomState where
  name : Option String := none
  canonical_alias : Option String := none
  topic : Option String := none
  avatar : String := ""
  aliases : List String := []
  members_by_id : String → Option Member := fun _ => none
  members_by_displayname : String → Option (List String) := fun _ => none
  departed : String := ""

/-- `RoomState::member_from_id`. -/
def RoomState.member_from_id (s : RoomState) (id : String) : Option Member :=
  s.members_by_id id

/-- `RoomState::member_disambiguation`.  The `else` branch calls
`members_named`, i.e. `members_by_displayname_.at(NFC(display_name))`, which
throws when the bucket is absent: this is the `none` result.  Note that the
final `member_from_id` receives the *raw* display name (the code does not
normalize there), while the empty-name branch keys the bucket map by the raw
id. -/
def RoomState.member_disambiguation (nfc : String → String) (s : RoomState)
    (m : Member) : Option String :=
  if m.display_name = "" then
    some (if (s.members_by_displayname m.id).isSome then m.id else "")
  else
    match s.members_by_displayname (nfc m.display_name) with
    | none => none
    | some v =>
      some (if 1 < v.length ∨ (s.member_from_id m.display_name).isSome
            then m.id else "")

/-- `RoomState::member_name`: pretty name plus `" (<id>)"` when
disambiguation is required. -/
def RoomState.member_name (nfc : String → String) (s : RoomState)
    (m : Member) : Option String := do
  let d ← s.member_disambiguation nfc m
  pure (if d = "" then m.pretty_name else m.pretty_name ++ " (" ++ d ++ ")")

/-- Update only the member map (the C++ code mutates `members_by_id_` in
place). -/
def RoomState.setMembers (s : RoomState) (ms : String → Option Member) : RoomState :=
  { s with members_by_id := ms }

/-- Update only the display-name index (the C++ code mutates
`members_by_displayname_` in place). -/
def RoomState.setBuckets (s : RoomState) (bs : String → Option (List String)) : RoomState :=
  { s with members_by_displayname := bs }

@[simp] theorem setMembers_members_by_id (s : RoomState) (ms) :
    (s.setMembers ms).members_by_id = ms := rfl

@[simp] theorem setMembers_members_by_displayname (s : RoomState) (ms) :
    (s.setMembers ms).members_by_displayname = s.members_by_displayname := rfl

@[simp] theorem setMembers_departed (s : RoomState) (ms) :
    (s.setMembers ms).departed = s.departed := rfl

@[simp] theorem setMembers_name (s : RoomState) (ms) :
    (s.setMembers ms).name = s.name := rfl

@[simp] theorem setMembers_canonical_alias (s : RoomState) (ms) :
    (s.setMembers ms).canonical_alias = s.canonical_alias := rfl

@[simp] theorem setMembers_topic (s : RoomState) (ms) :
    (s.setMembers ms).topic = s.topic := rfl

@[simp] theorem setMembers_avatar (s : RoomState) (ms) :
    (s.setMembers ms).avatar = s.avatar := rfl

@[simp] theorem setMembers_aliases (s : RoomState) (ms) :
    (s.setMembers ms).aliases = s.aliases := rfl

@[simp] theorem setBuckets_members_by_id (s : RoomState) (bs) :
    (s.setBuckets bs).members_by_id = s.members_by_id := rfl

@[simp] theorem setBuckets_members_by_displayname (s : RoomState) (bs) :
    (s.setBuckets bs).members_by_displayname = bs := rfl

@[simp] theorem setBuckets_departed (s : RoomState) (bs) :
    (s.setBuckets bs).departed = s.departed := rfl

@[simp] theorem setBuckets_name (s : RoomState) (bs) :
    (s.setBuckets bs).name = s.name := rfl

@[simp] theorem setBuckets_canonical_alias (s : RoomState) (bs) :
    (s.setBuckets bs).canonical_alias = s.canonical_alias := rfl

@[simp] theorem setBuckets_topic (s : RoomState) (bs) :
    (s.setBuckets bs).topic = s.topic := rfl

@[simp] theorem setBuckets_avatar (s : RoomState) (bs) :
    (s.setBuckets bs).avatar = s.avatar := rfl

@[simp] theorem setBuckets_aliases (s : RoomState) (bs) :
    (s.setBuckets bs).aliases = s.aliases := rfl

/-- `RoomState::record_displayname`.  Appends `id` to the bucket of the
NFC-normalized name (creating it via `operator[]`), after the
`assert(x != id)` duplicate check; when `room` is attached, identifies the
at most one transitively-affected other member (the pre-existing bucket
occupant when the bucket reached size exactly 2, xor the member whose id
equals the normalized name) and emits `member_disambiguation_changed(other,
"")`.  `members_by_id_.at(vec[0])` throwing is `none`. -/
def RoomState.record_displayname (nfc : String → String) (s : RoomState)
    (id name : String) (room : Option RoomCtx) :
    Option (RoomState × List Obs) :=
  if name = "" then some (s, [])
  else if id ∈ (s.members_by_displayname (nfc name)).getD [] then none
  else
    match room with
    | none =>
      some (s.setBuckets (Function.update s.members_by_displayname (nfc name)
        (some ((s.members_by_displayname (nfc name)).getD [] ++ [id]))), [])
    | some _ =>
      if ((s.members_by_displayname (nfc name)).getD [] ++ [id]).length = 2 ∧
          (s.member_from_id (nfc name)).isSome then
        some (s.setBuckets (Function.update s.members_by_displayname (nfc name)
          (some ((s.members_by_displayname (nfc name)).getD [] ++ [id]))), [])
      else if ((s.members_by_displayname (nfc name)).getD [] ++ [id]).length = 2 then
        match ((s.members_by_displayname (nfc name)).getD [] ++ [id]).head? with
        | none => none
        | some first =>
          match s.members_by_id first with
          | none => none
          | some other =>
            some (s.setBuckets (Function.update s.members_by_displayname (nfc name)
              (some ((s.members_by_displayname (nfc name)).getD [] ++ [id]))),
              [.memberDisambiguationChanged other.id ""])
      else
        match s.member_from_id (nfc name) with
        | some other =>
          some (s.setBuckets (Function.update s.members_by_displayname (nfc name)
            (some ((s.members_by_displayname (nfc name)).getD [] ++ [id]))),
            [.memberDisambiguationChanged other.id ""])
        | none =>
          some (s.setBuckets (Function.update s.members_by_displayname (nfc name)
            (some ((s.members_by_displayname (nfc name)).getD [] ++ [id]))), [])

/-- The other-member determination inside `RoomState::forget_displayname`
(`Room.cpp` lines 123-133), on the *pre-removal* bucket `vec`:
`existing_displayname = vec.size() == 2`, `existing_mxid =
member_from_id(old_name)`; inside `if(room && (!existing_displayname ||
!existing_mxid))`, the bucket partner (via `members_by_id_.at`, which can
throw: outer `none`) is overridden by the mxid hit.  `some none` is "no
other member". -/
def RoomState.forget_other (s : RoomState) (id old_name : String)
    (vec : List String) (room : Option RoomCtx) : Option (Option Member) :=
  if room.isSome ∧ ¬(vec.length = 2 ∧ (s.member_from_id old_name).isSome) then
    if vec.length = 2 then
      match (if vec[0]? = some id then vec[1]? else vec[0]?) with
      | none => none
      | some oid =>
        match s.members_by_id oid with
        | none => none
        | some m => some (some m)
    else if (s.member_from_id old_name).isSome then some (s.member_from_id old_name)
    else some none
  else some none

def RoomState.forget_displayname (nfc : String → String) (s : RoomState)
    (id old_name_in : String) (room : Option RoomCtx) :
    Option (RoomState × List Obs) :=
  if old_name_in = "" then some (s, [])
  else
    match s.members_by_displayname (nfc old_name_in) with
    | none => none
    | some vec =>
      match s.forget_other id (nfc old_name_in) vec room with
      | none => none
      | some other =>
        match (match other with
               | some m => s.member_disambiguation nfc m
               | none => some "" : Option String) with
        | none => none
        | some other_disambiguation =>
          if vec.length - (vec.filter (· ≠ id)).length ≠ 1 then none
          else
            some (s.setBuckets (Function.update s.members_by_displayname (nfc old_name_in)
                (if vec.filter (· ≠ id) = [] then none else some (vec.filter (· ≠ id)))),
              match other with
              | some m => [Obs.memberDisambiguationChanged m.id other_disambiguation]
              | none => [])

/-- Folding the partner lookup into `Option` combinators. -/
theorem opt_lookup_eq (x : Option String) (f : String → Option Member) :
    (match x with
     | none => none
     | some oid =>
       match f oid with
       | none => none
       | some m => some (some m)) = (x.bind f).map some := by
  cases x with
  | none => rfl
  | some oid =>
    show (match f oid with
      | none => (none : Option (Option Member))
      | some m => some (some m)) = ((some oid).bind f).map some
    rw [Option.some_bind]
    cases hy : f oid with
    | none => rfl
    | some m => rfl

/-- `forget_other` when both collision conditions hold: no notification
target. -/
theorem forget_other_both (s : RoomState) (id old_name : String)
    (vec : List String) (room : Option RoomCtx)
    (hA : vec.length = 2) (hB : (s.member_from_id old_name).isSome = true) :
    s.forget_other id old_name vec room = some none := by
  unfold RoomState.forget_other
  rw [if_neg]
  simp [hA, hB]

/-- `forget_other` when only the size-2 condition holds: the bucket partner
is looked up in the member map. -/
theorem forget_other_partner (s : RoomState) (id old_name : String)
    (vec : List String) (ctx : RoomCtx)
    (hA : vec.length = 2) (hB : s.member_from_id old_name = none) :
    s.forget_other id old_name vec (some ctx) =
      ((if vec[0]? = some id then vec[1]? else vec[0]?).bind s.members_by_id).map some := by
  unfold RoomState.forget_other
  rw [hB, if_pos (by simp [hA]), if_pos hA, opt_lookup_eq]

/-- `forget_other` when only the mxid condition holds: that member is the
target. -/
theorem forget_other_mxid (s : RoomState) (id old_name : String)
    (vec : List String) (ctx : RoomCtx) (other : Member)
    (hA : vec.length ≠ 2) (hB : s.member_from_id old_name = some other) :
    s.forget_other id old_name vec (some ctx) = some (some other) := by
  unfold RoomState.forget_other
  rw [hB, if_pos (by simp [hA]), if_neg hA, if_pos (by rfl)]

/-- `forget_other` when neither condition holds. -/
theorem forget_other_neither (s : RoomState) (id old_name : String)
    (vec : List String) (room : Option RoomCtx)
    (hA : vec.length ≠ 2) (hB : s.member_from_id old_name = none) :
    s.forget_other id old_name vec room = some none := by
  unfold RoomState.forget_other
  rw [hB]
  by_cases hr : room.isSome
  · rw [if_pos (by simp [hA, hr]), if_neg hA, if_neg (by simp)]
  · rw [if_neg (by simp [hr])]

/-- `forget_other` with no callbacks attached never names a target. -/
theorem forget_other_none (s : RoomState) (id old_name : String)
    (vec : List String) :
    s.forget_other id old_name vec none = some none := by
  unfold RoomState.forget_other
  rw [if_neg (by simp)]

/-- The `left(membership)` emission guard at the head of the Leave/Ban case:
fires when callbacks are attached and the state key equals `room->id()`. -/
def leftObs (room : Option RoomCtx) (user_id : String) (membership : Membership) : List Obs :=
  match room with
  | some ctx => if user_id = ctx.room_id then [Obs.left membership] else []
  | none => []

/-- The shared re-indexing step of `update_membership`: when the display
name changed, forget the old name and record the new one (on the snapshot
`s2` that already holds the updated member). -/
def RoomState.reindex (nfc : String → String) (s2 : RoomState) (mid : String)
    (old_name new_name : String) (room : Option RoomCtx) :
    Option (RoomState × List Obs) :=
  if new_name ≠ old_name then
    match s2.forget_displayname nfc mid old_name room with
    | none => none
    | some p1 =>
      match p1.1.record_displayname nfc mid new_name room with
      | none => none
      | some p2 => some (p2.1, p1.2 ++ p2.2)
  else some (s2, [])

/-- Core of the `Membership::INVITE`/`JOIN` case of the `switch` in
`RoomState::update_membership`, after the member has been emplaced:
`s1` is the snapshot holding `member0` under `user_id`.  Captures the old
rendered member name, overwrites the member from the content, re-indexes
and emits `member_name_changed` on a display-name change (when the old
membership was displayable), then emits `membership_changed` on a
membership change. -/
def RoomState.membership_join_core (nfc : String → String) (s1 : RoomState)
    (user_id : String) (member0 : Member) (content : Content)
    (room : Option RoomCtx) (membership : Membership) :
    Option (RoomState × List Obs) :=
  match s1.member_name nfc member0 with
  | none => none
  | some old_member_name =>
    match (s1.setMembers (Function.update s1.members_by_id user_id
        (some (member0.update_membership content)))).reindex nfc
        (member0.update_membership content).id member0.display_name
        (member0.update_membership content).display_name room with
    | none => none
    | some q =>
      some (q.1, q.2 ++
        (if (member0.update_membership content).display_name ≠ member0.display_name ∧
            room.isSome ∧ membership_displayable member0.membership then
          [Obs.memberNameChanged (member0.update_membership content).id old_member_name]
         else []) ++
        (if room.isSome ∧ (member0.update_membership content).membership ≠ member0.membership then
          [Obs.membershipChanged (member0.update_membership content).id membership]
         else []))

/-- The `Membership::INVITE`/`JOIN` case of the `switch` in
`RoomState::update_membership`: emplace the member keyed by the user id
(fresh members start with the bare id and `LEAVE` membership), then run the
core.  (The LMDB `dbi_put` does not affect the snapshot.) -/
def RoomState.membership_join (nfc : String → String) (s : RoomState)
    (user_id : String) (content : Content) (room : Option RoomCtx)
    (membership : Membership) : Option (RoomState × List Obs) :=
  RoomState.membership_join_core nfc
    (s.setMembers (Function.update s.members_by_id user_id
      (some ((s.members_by_id user_id).getD
        { id := user_id, display_name := "", avatar_url := "", membership := .LEAVE }))))
    user_id
    ((s.members_by_id user_id).getD
      { id := user_id, display_name := "", avatar_url := "", membership := .LEAVE })
    content room membership

/-- The `Membership::LEAVE`/`BAN` case of the `switch` in
`RoomState::update_membership`: emit `left` when the state key equals
`room->id()`; when the member exists, overwrite it from the content,
re-index on a display-name change, emit `membership_changed`, and record
the id in `departed_` after `assert(departed_.isEmpty())`.  (The LMDB
`dbi_del` does not affect the snapshot.) -/
def RoomState.membership_leave (nfc : String → String) (s : RoomState)
    (user_id : String) (content : Content) (room : Option RoomCtx)
    (membership : Membership) : Option (RoomState × List Obs) :=
  match s.members_by_id user_id with
  | none => some (s, leftObs room user_id membership)
  | some member0 =>
    match (s.setMembers (Function.update s.members_by_id user_id
        (some (member0.update_membership content)))).reindex nfc
        (member0.update_membership content).id member0.display_name
        (member0.update_membership content).display_name room with
    | none => none
    | some q =>
      if q.1.departed ≠ "" then none
      else
        some ({ q.1 with departed := (member0.update_membership content).id },
          leftObs room user_id membership ++ q.2 ++
            (if room.isSome then
              [Obs.membershipChanged (member0.update_membership content).id membership]
             else []))

/-- `RoomState::update_membership`.  Mirrors the source: empty content is
treated as Leave (it "arises when moving backwards from an initial event");
an unrecognized membership string logs and returns `false` without touching
the state; otherwise the Invite/Join or Leave/Ban case of the switch runs
and the function returns `true`. -/
def RoomState.update_membership (nfc : String → String) (s : RoomState)
    (user_id : String) (content : Content) (room : Option RoomCtx) :
    Option (RoomState × List Obs × Bool) :=
  let parsed : Option Membership :=
    if content.isEmpty then some .LEAVE
    else parse_membership (content.membership.getD "")
  match parsed with
  | none => some (s, [], false)
  | some membership =>
    match membership with
    | .INVITE | .JOIN =>
      (s.membership_join nfc user_id content room membership).map
        (fun p => (p.1, p.2, true))
    | .LEAVE | .BAN =>
      (s.membership_leave nfc user_id content room membership).map
        (fun p => (p.1, p.2, true))

/-- The alias merge in `RoomState::dispatch` for `m.room.aliases`: existing
and incoming aliases are poured into an `unordered_set` and back.  Modeled
as order-preserving deduplicating append (the C++ set's iteration order is
unspecified; no claim depends on the resulting order). -/
def mergeAliases (old new : List String) : List String :=
  old ++ new.foldl (fun acc x => if x ∈ old ∨ x ∈ acc then acc else acc ++ [x]) []

/-- `RoomState::dispatch`.  Per-type behavior as in the source: message and
create are no-ops returning `false`; aliases merges and returns `true`
(notifying unconditionally); canonical_alias/name/topic/avatar overwrite and
return `true`, notifying only on change (topic carries the old value);
member delegates to `update_membership`; unknown types log and return
`false`. -/
def RoomState.dispatch (nfc : String → String) (s : RoomState) (e : Event)
    (room : Option RoomCtx) : Option (RoomState × List Obs × Bool) :=
  if e.type = "m.room.message" then some (s, [], false)
  else if e.type = "m.room.aliases" then
    let s' := { s with aliases := mergeAliases s.aliases (e.content.aliases.getD []) }
    some (s', if room.isSome then [.aliasesChanged] else [], true)
  else if e.type = "m.room.canonical_alias" then
    let old := s.canonical_alias
    let s' := { s with canonical_alias := e.content.room_alias }
    some (s', if room.isSome ∧ s'.canonical_alias ≠ old then [.canonicalAliasChanged] else [], true)
  else if e.type = "m.room.name" then
    let old := s.name
    let s' := { s with name := e.content.name }
    some (s', if room.isSome ∧ s'.name ≠ old then [.nameChanged] else [], true)
  else if e.type = "m.room.topic" then
    let old := s.topic
    let s' := { s with topic := e.content.topic }
    some (s', if room.isSome ∧ s'.topic ≠ old then [.topicChanged old] else [], true)
  else if e.type = "m.room.avatar" then
    let old := s.avatar
    let s' := { s with avatar := e.content.url.getD "" }
    some (s', if room.isSome ∧ s'.avatar ≠ old then [.avatarChanged] else [], true)
  else if e.type = "m.room.create" then some (s, [], false)
  else if e.type = "m.room.member" then
    s.update_membership nfc e.state_key e.content room
  else some (s, [], false)

/-- `RoomState::prune_departed`: when `departed_` is set, forget that
member's display name, erase the member, and clear `departed_`.
`members_by_id_.at(departed_)` throwing is `none`. -/
def RoomState.prune_departed (nfc : String → String) (s : RoomState)
    (room : Option RoomCtx) : Option (RoomState × List Obs) :=
  if s.departed = "" then some (s, [])
  else
    match s.members_by_id s.departed with
    | none => none
    | some member => do
      let (s2, obs) ← s.forget_displayname nfc s.departed member.display_name room
      let ms3 := Function.update s2.members_by_id s.departed none
      some ({ s2 with members_by_id := ms3, departed := "" }, obs)

/-- One ingestion step as performed by the sync loop (`Room::dispatch`,
`Room::load_state`): `state_.dispatch(evt, …)` immediately followed by its
paired `state_.prune_departed(…)`. -/
def RoomState.dispatchPrune (nfc : String → String) (s : RoomState) (e : Event)
    (room : Option RoomCtx) : Option (RoomState × List Obs × Bool) := do
  let (s1, o1, b) ← s.dispatch nfc e room
  let (s2, o2) ← s1.prune_departed nfc room
  some (s2, o1 ++ o2, b)

/-- The state reached by a dispatch/prune pair, with the original state kept
on an exception (on which the C++ process would have aborted and there would
be no "after" to speak of). -/
def RoomState.afterDispatchPrune (nfc : String → String) (s : RoomState)
    (e : Event) (room : Option RoomCtx) : RoomState :=
  match s.dispatchPrune nfc e room with
  | some (s', _, _) => s'
  | none => s

/-- `RoomState::apply` (declared in `Room.hpp`, spec §4.3: "forward dispatch
without callbacks or persistence") followed by the paired
`prune_departed()`, as the constructor replay and eviction loops do. -/
def RoomState.applyPrune (nfc : String → String) (s : RoomState) (e : Event) :
    Option RoomState := do
  let (s1, _, _) ← s.dispatch nfc e none
  let (s2, _) ← s1.prune_departed nfc none
  some s2


/-! ## The `Room` composite: receipts, unread scan, ephemeral events,
serialization (`Room.cpp` lines 177-333, 644-683). -/

/-- `Room::Receipt`: `{event: EventID, ts: u64}`. -/
structure Receipt where
  event : String
  ts : Nat
deriving DecidableEq, Repr

/-- `struct TimelineBatch`-like batch of `Room`: `prev_batch` token plus
events. -/
structure Batch where
  prev_batch : String
  events : List Event
deriving DecidableEq, Repr

/-- Lookup in an association list, modeling `std::map::find` /
`std::unordered_map::find` for the receipt maps (which the code iterates, so
they are lists here; `std::map` iterates in key order and `QJsonObject` also
iterates in key order, so keeping one common list order across a round trip
is faithful). -/
def alookup (l : List (String × Receipt)) (k : String) : Option Receipt :=
  (l.find? (fun p => p.1 = k)).map (·.2)

/-- Replace the value bound to an existing key in an association list. -/
def aset (l : List (String × Receipt)) (k : String) (v : Receipt) :
    List (String × Receipt) :=
  l.map (fun p => if p.1 = k then (k, v) else p)

/-- The in-memory fields of `class Room` that the verified operations read:
identity, the session's own user id, both state snapshots, the timeline
buffer, unread counters, both receipt indexes and the typing list.  The
receipts-by-event index stores user ids, the spec-sanctioned equivalent of
the pointer vector (§9: "equivalent implementation: store UserId in the
event index and look up"). -/
structure Room where
  id : String := ""
  own_user : String := ""
  initial_state : RoomState := {}
  state : RoomState := {}
  buffer : List Batch := []
  highlight_count : Nat := 0
  notification_count : Nat := 0
  receipts_by_user : List (String × Receipt) := []
  receipts_by_event : String → List String := fun _ => []
  typing : List String := []

/-- `Room::receipt_from`. -/
def Room.receipt_from (r : Room) (user : String) : Option Receipt :=
  alookup r.receipts_by_user user

/-- `Room::update_receipt`: insert or overwrite the user's receipt; when the
user already had one, first drop the stale pointer from the old event's
bucket; finally push a pointer into the new event's bucket. -/
def Room.update_receipt (r : Room) (user event : String) (ts : Nat) : Room :=
  match alookup r.receipts_by_user user with
  | none =>
    { r with
      receipts_by_user := r.receipts_by_user ++ [(user, ⟨event, ts⟩)]
      receipts_by_event := Function.update r.receipts_by_event event
        (r.receipts_by_event event ++ [user]) }
  | some old =>
    let cleaned := Function.update r.receipts_by_event old.event
      ((r.receipts_by_event old.event).filter (· ≠ user))
    { r with
      receipts_by_user := aset r.receipts_by_user user ⟨event, ts⟩
      receipts_by_event := Function.update cleaned event (cleaned event ++ [user]) }

/-- The newest-to-oldest scan order of `Room::has_unread`: batches from the
back of the buffer, events from the back of each batch. -/
def scanList (buffer : List Batch) : List Event :=
  (buffer.flatMap (·.events)).reverse

/-- The inner double loop of `Room::has_unread`: walk events newest first;
reaching the receipt's event stops with `false`; a message from another user
stops with `true`; falling off the end yields `true`. -/
def unreadScan (own : String) (rc : Receipt) : List Event → Bool
  | [] => true
  | e :: rest =>
    if rc.event = e.event_id then false
    else if e.type = "m.room.message" ∧ e.sender ≠ own then true
    else unreadScan own rc rest

/-- `Room::has_unread` (`Room.cpp` lines 657-668). -/
def Room.has_unread (r : Room) : Bool :=
  match r.buffer.getLast? with
  | none => true
  | some back =>
    if back.events = [] then true
    else
      match r.receipt_from r.own_user with
      | none => true
      | some rc => unreadScan r.own_user rc (scanList r.buffer)

/-- The observable calls of the ephemeral-event loop of `Room::dispatch`:
each `update_receipt(user, event, ts)` invocation plus each emitted signal. -/
inductive EphObs where
  | updateReceipt (user event : String) (ts : Nat)
  | receiptsChanged
  | typingChanged
deriving DecidableEq, Repr

/-- State effect of one `m.receipt` ephemeral event: nested iteration over
`content` (event ids) and the users under `m.read`. -/
def Room.applyReceiptContent (r : Room) (read : List (String × List (String × Nat))) : Room :=
  read.foldl (fun acc p => p.2.foldl (fun acc q => acc.update_receipt q.1 p.1 q.2) acc) r

/-- The `update_receipt` calls of one `m.receipt` ephemeral event, in
invocation order. -/
def receiptCalls (read : List (String × List (String × Nat))) : List EphObs :=
  read.flatMap (fun p => p.2.map (fun q => EphObs.updateReceipt q.1 p.1 q.2))

/-- One iteration of the ephemeral loop of `Room::dispatch` (`Room.cpp`
lines 308-327): `m.receipt` performs the nested `update_receipt` calls and
then emits `receipts_changed()`; `m.typing` replaces the typing list and
emits `typing_changed()`; anything else only logs. -/
def Room.processEphemeral (r : Room) (e : Event) : Room × List EphObs :=
  if e.type = "m.receipt" then
    (r.applyReceiptContent e.content.read, receiptCalls e.content.read ++ [.receiptsChanged])
  else if e.type = "m.typing" then
    ({ r with typing := e.content.user_ids.getD [] }, [.typingChanged])
  else (r, [])

/-- The whole ephemeral loop over one sync delta's `ephemeral.events`,
concatenating the per-event calls and signals in program order. -/
def Room.processEphemerals (r : Room) : List Event → Room × List EphObs
  | [] => (r, [])
  | e :: es =>
    let (r1, o1) := r.processEphemeral e
    let (r2, o2) := r1.processEphemerals es
    (r2, o1 ++ o2)

/-! ## Serialization (`RoomState::to_json`, `Room::to_json`, the
constructors `RoomState::RoomState(info, txn, member_db)` and
`Room::Room(..., initial, ...)`).  `proto::to_json`/`parse_event` for the
buffered events live outside `src/`; per the external-interface section of
the spec they are a faithful JSON round trip, so events are carried as-is. -/

/-- The JSON object produced by `RoomState::to_json`: only non-null fields
are emitted (non-empty, for the avatar URL); the alias array is always
present. -/
structure StateJson where
  name : Option String
  canonical_alias : Option String
  topic : Option String
  avatar : Option String
  aliases : List String
deriving DecidableEq, Repr

/-- `RoomState::to_json`. -/
def RoomState.to_json (s : RoomState) : StateJson :=
  { name := s.name
    canonical_alias := s.canonical_alias
    topic := s.topic
    avatar := if s.avatar = "" then none else some s.avatar
    aliases := s.aliases }

/-- `RoomState::RoomState(info, txn, member_db)`: metadata from `info`, then
a cursor scan of the member database, emplacing each member and recording
its display name with no room callbacks.  The database is a list of
(key, stored member record) pairs in cursor (key) order. -/
def RoomState.load (nfc : String → String) (info : StateJson)
    (db : List (String × Member)) : Option RoomState :=
  let s0 : RoomState :=
    { name := info.name
      canonical_alias := info.canonical_alias
      topic := info.topic
      avatar := info.avatar.getD ""
      aliases := info.aliases }
  db.foldlM (fun s p =>
    match s.members_by_id p.1 with
    | some member => do
      let (s', _) ← s.record_displayname nfc member.id member.display_name none
      pure s'
    | none => do
      let member := Member.fromDb p.1 p.2
      let ms := Function.update s.members_by_id p.1 (some member)
      let s1 := { s with members_by_id := ms }
      let (s', _) ← s1.record_displayname nfc member.id member.display_name none
      pure s') s0

/-- The JSON object produced by `Room::to_json`: the serialized initial
state, the *last* timeline batch only (prev_batch plus events) when the
buffer is non-empty, the counters, and the user-keyed receipt map. -/
structure RoomJson where
  initial_state : StateJson
  buffer : Option (String × List Event)
  highlight_count : Nat
  notification_count : Nat
  receipts : List (String × Receipt)
deriving Repr

/-- `Room::to_json` (`Room.cpp` lines 230-252). -/
def Room.to_json (r : Room) : RoomJson :=
  { initial_state := r.initial_state.to_json
    buffer := match r.buffer.getLast? with
      | none => none
      | some back => some (back.prev_batch, back.events)
    highlight_count := r.highlight_count
    notification_count := r.notification_count
    receipts := r.receipts_by_user }

/-- Replay used by the `Room` constructor: `state_.apply(evt)` then
`state_.prune_departed()` for each saved buffer event. -/
def replayEvents (nfc : String → String) : RoomState → List Event → Option RoomState :=
  List.foldlM (RoomState.applyPrune nfc)

/-- `Room::Room(universe, session, id, initial, env, txn, member_db)` for a
non-empty `initial` object: load `initial_state` from JSON and the member
database, copy it to `state`, rebuild the single saved batch replaying each
event into `state`, read the counters, and re-insert every saved receipt via
`update_receipt`. -/
def Room.from_json (nfc : String → String) (j : RoomJson)
    (db : List (String × Member)) (id own : String) : Option Room := do
  let init ← RoomState.load nfc j.initial_state db
  let (buf, st) ←
    match j.buffer with
    | none => some ([], init)
    | some (pb, evs) => do
      let st ← replayEvents nfc init evs
      some ([Batch.mk pb evs], st)
  let base : Room :=
    { id := id, own_user := own, initial_state := init, state := st,
      buffer := buf, highlight_count := j.highlight_count,
      notification_count := j.notification_count }
  some (j.receipts.foldl (fun r p => r.update_receipt p.1 p.2.event p.2.ts) base)

/-! ## The sender (`Room::send`, `Room::transmit_event`,
`Room::transmit_finished`, `Room.cpp` lines 174-175, 589-592, 685-725).
Durations are exact rationals in seconds (`steady_clock` arithmetic is exact
at every value this schedule reaches down to well below the millisecond
granularity the timer uses); `QTimer::start` takes whole milliseconds via
`duration_cast<milliseconds>`, which truncates. -/

/-- `MINIMUM_BACKOFF`: 5 seconds. -/
def MINIMUM_BACKOFF : ℚ := 5

/-- A queued outbound event `{type, content}`. -/
structure OutEvent where
  type : String
  content : String
deriving DecidableEq, Repr

/-- The sender-related fields of `Room` plus the session's transaction-id
counter (`session_.get_transaction_id()` hands out fresh tokens, modeled as
successive naturals). -/
structure Sender where
  pending : List OutEvent
  transmitting : Bool
  lastTxn : Option Nat
  backoff : ℚ
  nextTxn : Nat
  timerArmed : Bool
deriving DecidableEq, Repr

/-- Initial sender state: empty queue, `retry_backoff_(MINIMUM_BACKOFF)`. -/
def Sender.start : Sender :=
  { pending := [], transmitting := false, lastTxn := none,
    backoff := MINIMUM_BACKOFF, nextTxn := 0, timerArmed := false }

/-- Observable actions of the sender: the `PUT .../send/{type}/{txn}`
request, the start of the retry timer with its millisecond delay, and the
`error` signal. -/
inductive SendObs where
  | put (ev : OutEvent) (txn : Nat)
  | timerStart (ms : ℤ)
  | errorSignal
deriving DecidableEq, Repr

/-- `Room::transmit_event`: no-op while a request is in flight; otherwise
acquire a transaction id if none is held (fresh from the session) and issue
the PUT for the queue's front with that id.  `pending_events_.front()` on an
empty queue is undefined behavior, modeled as `none`; the code never reaches
it. -/
def transmit_event (st : Sender) : Option (Sender × List SendObs) :=
  if st.transmitting then some (st, [])
  else
    match st.pending with
    | [] => none
    | ev :: _ =>
      let (txn, st1) :=
        match st.lastTxn with
        | some t => (t, st)
        | none => (st.nextTxn, { st with lastTxn := some st.nextTxn, nextTxn := st.nextTxn + 1 })
      some ({ st1 with transmitting := true }, [.put ev txn])

/-- `Room::transmit_finished`, driven by the decoded reply `(code, error)`:
non-429 4xx drops the head and surfaces `error`; an error-free reply drops
the head; anything else retries.  When not retrying the transaction id is
cleared and the back-off reset to the floor; with work left, a retry arms
the single-shot timer with the current back-off (truncated to ms) and then
multiplies the back-off by 1.25 capping at 30 s, while a non-retry
immediately re-enters `transmit_event`. -/
def transmit_finished (st : Sender) (code : Nat) (err : Bool) :
    Option (Sender × List SendObs) :=
  if ¬st.transmitting then none
  else
    let st := { st with transmitting := false }
    let (st, retrying, obs0) :=
      if 400 ≤ code ∧ code < 500 ∧ code ≠ 429 then
        ({ st with pending := st.pending.tail }, false, [SendObs.errorSignal])
      else if ¬err then ({ st with pending := st.pending.tail }, false, ([] : List SendObs))
      else (st, true, [])
    let st := if retrying then st
      else { st with lastTxn := none, backoff := MINIMUM_BACKOFF }
    if st.pending = [] then some (st, obs0)
    else if retrying then
      some ({ st with timerArmed := true, backoff := min 30 (5/4 * st.backoff) },
        obs0 ++ [.timerStart (((1000 : ℚ) * st.backoff).floor)])
    else
      match transmit_event st with
      | none => none
      | some (st', obs1) => some (st', obs0 ++ obs1)

/-- External stimuli of the sender state machine: `Room::send(type,
content)`, completion of the in-flight reply, and expiry of the single-shot
retry timer. -/
inductive SendAction where
  | send (ev : OutEvent)
  | finish (code : Nat) (err : Bool)
  | timerFire
deriving DecidableEq, Repr

/-- One step of the sender: `send` enqueues and calls `transmit_event`;
`finish` runs `transmit_finished`; the timer must be armed to fire and its
expiry re-enters `transmit_event` (the timer is single-shot). -/
def senderStep (st : Sender) : SendAction → Option (Sender × List SendObs)
  | .send ev => transmit_event { st with pending := st.pending ++ [ev] }
  | .finish code err => transmit_finished st code err
  | .timerFire =>
    if st.timerArmed then transmit_event { st with timerArmed := false }
    else none

/-- Run of the sender over a list of stimuli, accumulating observations. -/
def runSender (st : Sender) : List SendAction → Option (Sender × List SendObs)
  | [] => some (st, [])
  | a :: as =>
    match senderStep st a with
    | none => none
    | some r1 =>
      match runSender r1.1 as with
      | none => none
      | some r2 => some (r2.1, r1.2 ++ r2.2)

/-- One transient-failure retry cycle: a 429 reply followed by the timer
firing. -/
def retryCycle : List SendAction := [.finish 429 true, .timerFire]

/-- The PUT requests of an observation trace. -/
def putsOf (obs : List SendObs) : List (OutEvent × Nat) :=
  obs.filterMap (fun o => match o with
    | .put e t => some (e, t)
    | _ => none)

/-- The timer delays (in milliseconds) of an observation trace. -/
def timersOf (obs : List SendObs) : List ℤ :=
  obs.filterMap (fun o => match o with
    | .timerStart ms => some ms
    | _ => none)


/-! ## Theorems -/

/-- The inner scan of `has_unread` returns `true` exactly when either a
message from another user appears strictly before the receipt's event, or
the receipt's event does not appear at all. -/
theorem unreadScan_eq_true_iff (own : String) (rc : Receipt) (L : List Event) :
    unreadScan own rc L = true ↔
      ((∃ e ∈ L.takeWhile (fun ev => ev.event_id != rc.event),
          e.type = "m.room.message" ∧ e.sender ≠ own) ∨
        rc.event ∉ L.map (·.event_id)) := by
  induction L with
  | nil => simp [unreadScan]
  | cons e rest ih =>
    by_cases h1 : rc.event = e.event_id
    · simp [unreadScan, h1, List.takeWhile_cons]
    · by_cases h2 : e.type = "m.room.message" ∧ e.sender ≠ own
      · simp [unreadScan, h1, h2, List.takeWhile_cons, Ne.symm h1]
      · simp [unreadScan, h1, h2, List.takeWhile_cons, Ne.symm h1, ih,
          eq_comm (a := rc.event)]

/-- C6: `Room::has_unread` is `true` iff the buffer is empty, or the tail
batch is empty, or no self-receipt exists, or, scanning all buffered events
from newest to oldest, a message from another sender occurs strictly before
the self receipt's event (meeting the receipt's event yields `false`,
exhausting the buffer yields `true`). -/
theorem has_unread_characterization (r : Room) :
    r.has_unread = true ↔
      (r.buffer = [] ∨
        (∃ back, r.buffer.getLast? = some back ∧ back.events = []) ∨
        r.receipt_from r.own_user = none ∨
        (∃ rc, r.receipt_from r.own_user = some rc ∧
          ((∃ e ∈ (scanList r.buffer).takeWhile (fun ev => ev.event_id != rc.event),
              e.type = "m.room.message" ∧ e.sender ≠ r.own_user) ∨
            rc.event ∉ (scanList r.buffer).map (·.event_id)))) := by
  unfold Room.has_unread
  match hlast : r.buffer.getLast? with
  | none =>
    have hb : r.buffer = [] := by
      cases hb : r.buffer with
      | nil => rfl
      | cons x xs => rw [hb] at hlast; simp [List.getLast?_concat] at hlast
    exact iff_of_true rfl (Or.inl hb)
  | some back =>
    have hne : r.buffer ≠ [] := by
      intro hb
      rw [hb] at hlast
      simp at hlast
    by_cases hev : back.events = []
    · refine iff_of_true ?_ (Or.inr (Or.inl ⟨back, rfl, hev⟩))
      simp [hev]
    · match hrc : r.receipt_from r.own_user with
      | none =>
        refine iff_of_true ?_ (Or.inr (Or.inr (Or.inl rfl)))
        simp [hev]
      | some rc =>
        have hcompute :
            (match some back with
              | none => true
              | some back =>
                if back.events = [] then true
                else
                  match some rc with
                  | none => true
                  | some rc => unreadScan r.own_user rc (scanList r.buffer)) =
              unreadScan r.own_user rc (scanList r.buffer) := by
          simp [hev]
        rw [hcompute]
        constructor
        · intro h
          exact Or.inr (Or.inr (Or.inr ⟨rc, rfl, (unreadScan_eq_true_iff _ _ _).mp h⟩))
        · rintro (hb | ⟨b2, hb2, he2⟩ | hn | ⟨rc2, hrc2, hP⟩)
          · exact absurd hb hne
          · cases hb2
            exact absurd he2 hev
          · cases hn
          · cases hrc2
            exact (unreadScan_eq_true_iff _ _ _).mpr hP


/-- No `receipts_changed` emission hides among the `update_receipt` calls of
one `m.receipt` event. -/
theorem countP_receiptCalls (read : List (String × List (String × Nat))) :
    (receiptCalls read).countP (· == EphObs.receiptsChanged) = 0 := by
  apply List.countP_eq_zero.mpr
  intro o ho
  simp only [receiptCalls, List.mem_flatMap, List.mem_map] at ho
  obtain ⟨p, _, q, _, rfl⟩ := ho
  simp

/-- A sync delta whose ephemeral list carries two `m.receipt` events. -/
def c9event : Event :=
  { type := "m.receipt", sender := "", event_id := "", state_key := "",
    content := { read := [("$e1:x", [("@u:x", 5)])] } }

/-- The empty room (all fields at their defaults). -/
def emptyRoom : Room := {}

/-- C9 counterexample: a delta with two `m.receipt` ephemeral events makes
the ephemeral loop of `Room::dispatch` emit `receipts_changed` twice, so it
is not "emitted at most once for the whole delta". -/
theorem C9_receipts_changed_counterexample :
    ¬((emptyRoom.processEphemerals [c9event, c9event]).2.countP
        (· == EphObs.receiptsChanged) ≤ 1) := by
  decide

/-- C9 amended: `receipts_changed` is emitted once per `m.receipt` ephemeral
event of the delta (after that event's `update_receipt` calls), not once per
delta. -/
theorem C9_receipts_changed_per_receipt_event (r : Room) (es : List Event) :
    (r.processEphemerals es).2.countP (· == EphObs.receiptsChanged) =
      es.countP (fun e => e.type == "m.receipt") := by
  induction es generalizing r with
  | nil => rfl
  | cons e es ih =>
    have h : (r.processEphemerals (e :: es)).2 =
        (r.processEphemeral e).2 ++ ((r.processEphemeral e).1.processEphemerals es).2 := rfl
    rw [h, List.countP_append, ih, List.countP_cons]
    rw [Nat.add_comm]
    congr 1
    by_cases ht : e.type = "m.receipt"
    · simp [Room.processEphemeral, ht, List.countP_append, countP_receiptCalls]
    · by_cases ht2 : e.type = "m.typing"
      · simp [Room.processEphemeral, ht, ht2]
      · simp [Room.processEphemeral, ht, ht2]

/-- A state whose name is already `"x"`, and an `m.room.name` event carrying
that same name. -/
def c2state : RoomState := { name := some "x" }

/-- The `m.room.name` event whose content repeats the current name. -/
def c2event : Event :=
  { type := "m.room.name", sender := "@a:x", event_id := "$n:x",
    state_key := "", content := { name := some "x" } }

/-- C2 counterexample: dispatching an `m.room.name` event whose content
leaves the name unchanged returns `true` although the snapshot is exactly
the prior one, so `dispatch` does not return `true` iff the snapshot
changed. -/
theorem C2_dispatch_counterexample :
    c2state.dispatch (fun x => x) c2event none = some (c2state, [], true) := rfl

/-- `update_membership` reports `true` for every recognized (or empty)
membership, regardless of whether anything changed. -/
theorem update_membership_flag (nfc : String → String) (s : RoomState)
    (uid : String) (c : Content) (room : Option RoomCtx)
    (r : RoomState × List Obs × Bool)
    (h : s.update_membership nfc uid c room = some r) :
    r.2.2 = (c.isEmpty ||
      (parse_membership (c.membership.getD "")).isSome) := by
  unfold RoomState.update_membership at h
  by_cases he : c.isEmpty
  · simp only [he, if_true, Bool.true_or]
    simp only [he, if_true] at h
    obtain ⟨p, _, hr⟩ := Option.map_eq_some'.mp h
    rw [← hr]
  · simp only [he, if_false, Bool.false_or] at h ⊢
    cases hp : parse_membership (c.membership.getD "") with
    | none =>
      rw [hp] at h
      have h2 : some (s, ([] : List Obs), false) = some r := h
      cases h2
      rfl
    | some m =>
      rw [hp] at h
      simp only [Option.isSome_some]
      cases m <;>
        · obtain ⟨p, _, hr⟩ := Option.map_eq_some'.mp h
          rw [← hr]

/-- C2 amended: the boolean `RoomState::dispatch` returns signals "this
event type can mutate the snapshot", not "the snapshot actually changed":
it is `true` exactly for the five metadata state types (always) and for
`m.room.member` events whose content is empty or carries a recognized
membership, and `false` for `m.room.message`, `m.room.create`, unknown
types, and member events with an unrecognized membership. -/
theorem C2_dispatch_flag (nfc : String → String) (s : RoomState) (e : Event)
    (room : Option RoomCtx) (r : RoomState × List Obs × Bool)
    (h : s.dispatch nfc e room = some r) :
    r.2.2 = true ↔
      (e.type ∈ ["m.room.aliases", "m.room.canonical_alias", "m.room.name",
        "m.room.topic", "m.room.avatar"] ∨
       (e.type = "m.room.member" ∧
        (e.content.isEmpty = true ∨
          (parse_membership (e.content.membership.getD "")).isSome = true))) := by
  unfold RoomState.dispatch at h
  by_cases h1 : e.type = "m.room.message"
  · simp only [h1, if_true] at h
    cases h
    simp [h1]
  · rw [if_neg h1] at h
    by_cases h2 : e.type = "m.room.aliases"
    · rw [if_pos h2] at h
      cases h
      simp [h1, h2]
    · rw [if_neg h2] at h
      by_cases h3 : e.type = "m.room.canonical_alias"
      · rw [if_pos h3] at h
        cases h
        simp [h2, h3]
      · rw [if_neg h3] at h
        by_cases h4 : e.type = "m.room.name"
        · rw [if_pos h4] at h
          cases h
          simp [h2, h3, h4]
        · rw [if_neg h4] at h
          by_cases h5 : e.type = "m.room.topic"
          · rw [if_pos h5] at h
            cases h
            simp [h2, h3, h4, h5]
          · rw [if_neg h5] at h
            by_cases h6 : e.type = "m.room.avatar"
            · rw [if_pos h6] at h
              cases h
              simp [h2, h3, h4, h5, h6]
            · rw [if_neg h6] at h
              by_cases h7 : e.type = "m.room.create"
              · rw [if_pos h7] at h
                cases h
                simp [h2, h3, h4, h5, h6, h7]
              · rw [if_neg h7] at h
                by_cases h8 : e.type = "m.room.member"
                · rw [if_pos h8] at h
                  rw [update_membership_flag nfc s e.state_key e.content room r h]
                  simp [h1, h2, h3, h4, h5, h6, h7, h8, Bool.or_eq_true]
                · rw [if_neg h8] at h
                  cases h
                  simp [h1, h2, h3, h4, h5, h6, h7, h8]

/-- Witness for the amended C2: a name event on a state already carrying
that name yields the `true` flag, and its type is among the mutable state
types. -/
theorem C2_dispatch_flag_witness :
    (true = true ↔
      (("m.room.name" : String) ∈ ["m.room.aliases", "m.room.canonical_alias",
        "m.room.name", "m.room.topic", "m.room.avatar"] ∨
       (("m.room.name" : String) = "m.room.member" ∧
        (c2event.content.isEmpty = true ∨
          (parse_membership (c2event.content.membership.getD "")).isSome = true)))) := by
  have h := C2_dispatch_flag (fun x => x) c2state c2event none (c2state, [], true) rfl
  exact h


/-- Every signal emitted by `forget_displayname` is a
`member_disambiguation_changed`. -/
theorem forget_displayname_obs_shape (nfc : String → String) (s : RoomState)
    (id old : String) (room : Option RoomCtx) (s2 : RoomState) (o : List Obs)
    (h : s.forget_displayname nfc id old room = some (s2, o)) :
    ∀ x ∈ o, ∃ i p, x = Obs.memberDisambiguationChanged i p := by
  unfold RoomState.forget_displayname at h
  split at h
  · cases h
    simp
  · split at h
    · exact Option.noConfusion h
    · split at h
      · exact Option.noConfusion h
      · rename_i other hother
        split at h
        · exact Option.noConfusion h
        · rename_i d hd
          split at h
          · exact Option.noConfusion h
          · cases h
            cases other with
            | none => simp
            | some m =>
              intro x hx
              simp only [List.mem_singleton] at hx
              exact ⟨m.id, _, hx⟩

/-- Every signal emitted by `record_displayname` is a
`member_disambiguation_changed`. -/
theorem record_displayname_obs_shape (nfc : String → String) (s : RoomState)
    (id name : String) (room : Option RoomCtx) (s2 : RoomState) (o : List Obs)
    (h : s.record_displayname nfc id name room = some (s2, o)) :
    ∀ x ∈ o, ∃ i p, x = Obs.memberDisambiguationChanged i p := by
  unfold RoomState.record_displayname at h
  split at h
  · cases h
    simp
  · split at h
    · exact Option.noConfusion h
    · split at h
      · cases h
        simp
      · split at h
        · cases h
          simp
        · split at h
          · split at h
            · exact Option.noConfusion h
            · split at h
              · exact Option.noConfusion h
              · cases h
                intro x hx
                simp only [List.mem_singleton] at hx
                exact ⟨_, "", hx⟩
          · split at h
            · cases h
              intro x hx
              simp only [List.mem_singleton] at hx
              exact ⟨_, "", hx⟩
            · cases h
              simp

/-- `left` membership of `leftObs`. -/
theorem leftObs_mem (room : Option RoomCtx) (uid : String) (mem : Membership)
    (x : Obs) :
    x ∈ leftObs room uid mem ↔
      (x = Obs.left mem ∧ ∃ ctx, room = some ctx ∧ uid = ctx.room_id) := by
  cases room with
  | none => simp [leftObs]
  | some ctx =>
    by_cases hid : uid = ctx.room_id <;>
      simp [leftObs, hid, and_comm, eq_comm]

/-- Every signal emitted by the shared re-indexing step is a
`member_disambiguation_changed`. -/
theorem reindex_obs_shape (nfc : String → String) (s2 : RoomState)
    (mid old_name new_name : String) (room : Option RoomCtx)
    (s4 : RoomState) (o : List Obs)
    (h : s2.reindex nfc mid old_name new_name room = some (s4, o)) :
    ∀ x ∈ o, ∃ i p, x = Obs.memberDisambiguationChanged i p := by
  unfold RoomState.reindex at h
  by_cases hch : new_name ≠ old_name
  · rw [if_pos hch] at h
    revert h
    cases h1 : s2.forget_displayname nfc mid old_name room with
    | none => intro h; exact Option.noConfusion h
    | some p1 =>
      intro h
      have h2' : (match p1.1.record_displayname nfc mid new_name room with
        | none => none
        | some p2 => some (p2.1, p1.2 ++ p2.2)) = some (s4, o) := h
      clear h
      revert h2'
      cases h2 : p1.1.record_displayname nfc mid new_name room with
      | none => intro h'; exact Option.noConfusion h'
      | some p2 =>
        intro h'
        cases h'
        intro x hx
        rcases List.mem_append.mp hx with hx1 | hx2
        · exact forget_displayname_obs_shape _ _ _ _ _ _ _ (by rw [h1]) x hx1
        · exact record_displayname_obs_shape _ _ _ _ _ _ _ (by rw [h2]) x hx2
  · rw [if_neg hch] at h
    cases h
    simp

/-- In the Leave/Ban case, `left(membership)` appears among the emitted
signals exactly when the departing state key equals `room->id()`. -/
theorem membership_leave_left_mem (nfc : String → String) (s : RoomState)
    (uid : String) (c : Content) (ctx : RoomCtx) (mem : Membership)
    (p : RoomState × List Obs)
    (h : s.membership_leave nfc uid c (some ctx) mem = some p) :
    (Obs.left mem ∈ p.2 ↔ uid = ctx.room_id) := by
  unfold RoomState.membership_leave at h
  revert h
  cases hm : s.members_by_id uid with
  | none =>
    intro h
    cases h
    simp only [leftObs_mem]
    constructor
    · rintro ⟨-, ctx2, hctx, hid⟩
      cases hctx
      exact hid
    · intro hid
      exact ⟨by trivial, ctx, rfl, hid⟩
  | some member0 =>
    intro h
    have h' : (match (s.setMembers (Function.update s.members_by_id uid
        (some (member0.update_membership c)))).reindex nfc
        (member0.update_membership c).id member0.display_name
        (member0.update_membership c).display_name (some ctx) with
      | none => none
      | some q =>
        if q.1.departed ≠ "" then none
        else
          some ({ q.1 with departed := (member0.update_membership c).id },
            leftObs (some ctx) uid mem ++ q.2 ++
              (if (some ctx : Option RoomCtx).isSome then
                [Obs.membershipChanged (member0.update_membership c).id mem]
               else []))) = some p := h
    clear h
    revert h'
    cases hre : (s.setMembers (Function.update s.members_by_id uid
        (some (member0.update_membership c)))).reindex nfc
        (member0.update_membership c).id member0.display_name
        (member0.update_membership c).display_name (some ctx) with
    | none => intro h'; exact Option.noConfusion h'
    | some q =>
      intro h'
      have h2 : (if q.1.departed ≠ "" then none
        else
          some ({ q.1 with departed := (member0.update_membership c).id },
            leftObs (some ctx) uid mem ++ q.2 ++
              (if (some ctx : Option RoomCtx).isSome then
                [Obs.membershipChanged (member0.update_membership c).id mem]
               else []))) = some p := h'
      clear h'
      by_cases hd : q.1.departed ≠ ""
      · rw [if_pos hd] at h2
        exact Option.noConfusion h2
      · rw [if_neg hd] at h2
        cases h2
        simp only [List.mem_append]
        constructor
        · rintro ((h0 | h12) | h3)
          · rcases (leftObs_mem _ _ _ _).mp h0 with ⟨-, ctx2, hctx, hid⟩
            cases hctx
            exact hid
          · obtain ⟨i, qq, hx⟩ := reindex_obs_shape _ _ _ _ _ _ _ _ (by rw [hre]) _ h12
            cases hx
          · revert h3
            simp
        · intro hid
          exact Or.inl (Or.inl ((leftObs_mem _ _ _ _).mpr ⟨rfl, ctx, rfl, hid⟩))

/-- The Leave content of the C3 scenario. -/
def c3content : Content := { membership := some "leave" }

/-- C3 counterexample: the code compares the departing state key against
`room->id()` (the room identifier, here `"!r:x"`), not against the session's
own user id.  With the client's own user being `"@me:x"`, a leave event for
subject `"@me:x"` emits no `left` signal (the observation list is empty)
although the departing subject is the own user, contradicting the claim. -/
theorem C3_left_counterexample :
    (RoomState.update_membership (fun x => x) {} "@me:x" c3content
        (some ⟨"!r:x"⟩)).map (fun r => r.2.1) = some [] ∧
      ("@me:x" : String) ≠ "!r:x" := by
  constructor
  · rfl
  · decide

/-- C3 amended: when `update_membership` processes a Leave or Ban with room
callbacks attached, `left(membership)` is emitted iff the departing state
key equals the *room's id* (`room->id()`), not the session's own user id. -/
theorem C3_left_iff_room_id (nfc : String → String) (s : RoomState)
    (uid : String) (c : Content) (ctx : RoomCtx) (m : Membership)
    (r : RoomState × List Obs × Bool)
    (hm : (if c.isEmpty then some Membership.LEAVE
           else parse_membership (c.membership.getD "")) = some m)
    (hlb : m = Membership.LEAVE ∨ m = Membership.BAN)
    (h : s.update_membership nfc uid c (some ctx) = some r) :
    (Obs.left m ∈ r.2.1 ↔ uid = ctx.room_id) := by
  unfold RoomState.update_membership at h
  rw [hm] at h
  rcases hlb with hl | hl <;> subst hl <;>
    · obtain ⟨p, hp, hr⟩ := Option.map_eq_some'.mp h
      rw [← hr]
      exact membership_leave_left_mem nfc s uid c ctx _ p hp

/-- Witness for the amended C3: a leave of `"!r:x"` itself (a state key
equal to the room id) does emit `left`, and one of `"@me:x"` does not. -/
theorem C3_left_iff_room_id_witness :
    (Obs.left Membership.LEAVE ∈
        ((RoomState.update_membership (fun x => x) {} "!r:x" c3content
            (some ⟨"!r:x"⟩)).getD ({}, [], true)).2.1 ↔
      ("!r:x" : String) = "!r:x") ∧
    (Obs.left Membership.LEAVE ∈
        ((RoomState.update_membership (fun x => x) {} "@me:x" c3content
            (some ⟨"!r:x"⟩)).getD ({}, [], true)).2.1 ↔
      ("@me:x" : String) = "!r:x") := by
  constructor
  · exact C3_left_iff_room_id (fun x => x) {} "!r:x" c3content ⟨"!r:x"⟩
      Membership.LEAVE _ (by rfl) (Or.inl rfl) (by rfl)
  · exact C3_left_iff_room_id (fun x => x) {} "@me:x" c3content ⟨"!r:x"⟩
      Membership.LEAVE _ (by rfl) (Or.inl rfl) (by rfl)

/-- The sender state while a PUT for the single queued event `e` is in
flight with transaction id `t`, back-off `b`, and next fresh id `n`. -/
def inflight (e : OutEvent) (t : Nat) (b : ℚ) (n : Nat) : Sender :=
  { pending := [e], transmitting := true, lastTxn := some t, backoff := b,
    nextTxn := n, timerArmed := false }

/-- The back-off value after `k` retry arm-and-multiply steps starting from
`b`. -/
def backoffFrom (b : ℚ) : Nat → ℚ
  | 0 => b
  | j + 1 => min 30 (5 / 4 * backoffFrom b j)

theorem backoffFrom_shift (b : ℚ) (j : Nat) :
    backoffFrom (min 30 (5 / 4 * b)) j = backoffFrom b (j + 1) := by
  induction j with
  | zero => rfl
  | succ j ih =>
    show min 30 (5 / 4 * backoffFrom (min 30 (5 / 4 * b)) j) = backoffFrom b (j + 2)
    rw [ih]
    rfl

/-- Closed form of the back-off sequence from the 5-second floor: the k-th
value is `min (5·1.25^k) 30` seconds. -/
theorem backoffFrom_closed (k : Nat) :
    backoffFrom MINIMUM_BACKOFF k = min (5 * (5 / 4 : ℚ) ^ k) 30 := by
  induction k with
  | zero => norm_num [backoffFrom, MINIMUM_BACKOFF]
  | succ k ih =>
    rw [backoffFrom, ih]
    rcases le_or_lt (5 * (5 / 4 : ℚ) ^ k) 30 with hle | hlt
    · rw [min_eq_left hle]
      have hpow : (5 / 4 : ℚ) * (5 * (5 / 4 : ℚ) ^ k) = 5 * (5 / 4 : ℚ) ^ (k + 1) := by
        ring
      rw [hpow, min_comm]
    · rw [min_eq_right hlt.le]
      have h1 : min (30 : ℚ) (5 / 4 * 30) = 30 := by norm_num
      have h2 : (30 : ℚ) ≤ 5 * (5 / 4 : ℚ) ^ (k + 1) := by
        have hpow : (5 : ℚ) * (5 / 4 : ℚ) ^ (k + 1) = 5 / 4 * (5 * (5 / 4 : ℚ) ^ k) := by
          ring
        rw [hpow]
        nlinarith [hlt]
      rw [h1, min_eq_right h2]

/-- Sequential-composition law of `runSender`. -/
theorem runSender_append (st : Sender) (as bs : List SendAction) :
    runSender st (as ++ bs) =
      (runSender st as).bind (fun r =>
        (runSender r.1 bs).map (fun r2 => (r2.1, r.2 ++ r2.2))) := by
  induction as generalizing st with
  | nil =>
    rw [List.nil_append]
    show runSender st bs =
      (some (st, ([] : List SendObs))).bind (fun r =>
        (runSender r.1 bs).map (fun r2 => (r2.1, r.2 ++ r2.2)))
    rw [Option.some_bind]
    cases hr : runSender st bs with
    | none => rfl
    | some r2 => simp
  | cons a as ih =>
    show (match senderStep st a with
      | none => none
      | some r1 =>
        match runSender r1.1 (as ++ bs) with
        | none => none
        | some r2 => some (r2.1, r1.2 ++ r2.2)) =
      ((match senderStep st a with
        | none => none
        | some r1 =>
          match runSender r1.1 as with
          | none => none
          | some r2 => some (r2.1, r1.2 ++ r2.2)) : Option (Sender × List SendObs)).bind
        (fun r => (runSender r.1 bs).map (fun r2 => (r2.1, r.2 ++ r2.2)))
    cases hs : senderStep st a with
    | none => rfl
    | some r1 =>
      show (match runSender r1.1 (as ++ bs) with
        | none => none
        | some r2 => some (r2.1, r1.2 ++ r2.2)) =
        ((match runSender r1.1 as with
          | none => none
          | some r2 => some (r2.1, r1.2 ++ r2.2)) : Option (Sender × List SendObs)).bind
          (fun r => (runSender r.1 bs).map (fun r2 => (r2.1, r.2 ++ r2.2)))
      rw [ih]
      cases hr : runSender r1.1 as with
      | none => rfl
      | some r2 =>
        simp only [Option.some_bind]
        cases hb : runSender r2.1 bs with
        | none => rfl
        | some r3 => simp [List.append_assoc]

/-- One retry cycle from an in-flight state: the 429 reply arms the timer
with the current back-off (truncated to milliseconds), multiplies the
back-off by 1.25 capped at 30 s, and the timer expiry re-issues the PUT with
the *same* transaction id. -/
theorem runSender_cycle (e : OutEvent) (t : Nat) (b : ℚ) (n : Nat) :
    runSender (inflight e t b n) retryCycle =
      some (inflight e t (min 30 (5 / 4 * b)) n,
        [.timerStart (((1000 : ℚ) * b).floor), .put e t]) := rfl

/-- `k` consecutive retry cycles keep the queue, the transaction id and the
fresh-id counter unchanged, drive the back-off through `backoffFrom`, and
emit per cycle the timer delay and the PUT with the constant transaction
id. -/
theorem runSender_cycles (e : OutEvent) (t n : Nat) (k : Nat) (b : ℚ) :
    runSender (inflight e t b n) (List.replicate k retryCycle).flatten =
      some (inflight e t (backoffFrom b k) n,
        (List.range k).flatMap (fun j =>
          [SendObs.timerStart (((1000 : ℚ) * backoffFrom b j).floor), .put e t])) := by
  induction k generalizing b with
  | zero => rfl
  | succ k ih =>
    rw [List.replicate_succ, List.flatten_cons, runSender_append, runSender_cycle]
    simp only [Option.some_bind]
    rw [ih, Option.map_some']
    dsimp only
    congr 1
    refine congrArg₂ Prod.mk ?_ ?_
    · rw [backoffFrom_shift]
    · rw [List.range_succ_eq_map, List.flatMap_cons, List.flatMap_map]
      refine congrArg₂ (· ++ ·) rfl ?_
      congr 1
      funext j
      rw [backoffFrom_shift]


/-- The idle sender state with the queue drained, no transaction id held,
the back-off at the floor, and `n` ids already consumed. -/
def idle (n : Nat) : Sender :=
  { pending := [], transmitting := false, lastTxn := none,
    backoff := MINIMUM_BACKOFF, nextTxn := n, timerArmed := false }

theorem putsOf_append (o1 o2 : List SendObs) :
    putsOf (o1 ++ o2) = putsOf o1 ++ putsOf o2 := by
  simp [putsOf, List.filterMap_append]

theorem timersOf_append (o1 o2 : List SendObs) :
    timersOf (o1 ++ o2) = timersOf o1 ++ timersOf o2 := by
  simp [timersOf, List.filterMap_append]

/-- The PUTs of `k` retry cycles: `k` copies of the same event with the same
transaction id. -/
theorem putsOf_cycleObs (e : OutEvent) (t : Nat) (k : Nat) (g : Nat → ℤ) :
    putsOf ((List.range k).flatMap (fun j => [SendObs.timerStart (g j), .put e t])) =
      List.replicate k (e, t) := by
  induction k with
  | zero => rfl
  | succ k ih =>
    rw [List.range_succ, List.flatMap_append, putsOf_append, ih,
      List.replicate_succ']
    rfl

/-- The timer delays of `k` retry cycles. -/
theorem timersOf_cycleObs (e : OutEvent) (t : Nat) (k : Nat) (g : Nat → ℤ) :
    timersOf ((List.range k).flatMap (fun j => [SendObs.timerStart (g j), .put e t])) =
      (List.range k).map g := by
  induction k with
  | zero => rfl
  | succ k ih =>
    rw [List.range_succ, List.flatMap_append, timersOf_append, ih,
      List.map_append]
    rfl

/-- `Room::send` from the idle state: enqueue, acquire the fresh transaction
id `n`, and PUT with it. -/
theorem runSender_send (e : OutEvent) (n : Nat) :
    runSender (idle n) [.send e] =
      some (inflight e n MINIMUM_BACKOFF (n + 1), [.put e n]) := rfl

/-- A successful completion: the head is dropped, the transaction id is
cleared and the back-off reset to the floor. -/
theorem runSender_success (e : OutEvent) (t : Nat) (b : ℚ) (n : Nat) :
    runSender (inflight e t b n) [.finish 200 false] = some (idle n, []) := rfl

/-- A permanent (404) failure: `error` is surfaced, the head is dropped, the
transaction id is cleared and the back-off reset to the floor. -/
theorem runSender_permanent (e : OutEvent) (t : Nat) (b : ℚ) (n : Nat) :
    runSender (inflight e t b n) [.finish 404 true] =
      some (idle n, [.errorSignal]) := rfl

/-- C7: across a run of `k` transient failures followed by a success, the
sender issues exactly `k+1` PUTs for the logical event, all with the one
transaction id acquired at the first transmission; the stored id is cleared
when the event leaves the queue (on success as well as on a permanent
non-429 4xx failure), so the next logical event acquires a fresh id. -/
theorem C7_transaction_id_reuse (k : Nat) (e e2 : OutEvent) :
    (∃ obs1,
      runSender Sender.start
        ([.send e] ++ (List.replicate k retryCycle).flatten ++ [.finish 200 false]) =
          some (idle 1, obs1) ∧
      putsOf obs1 = List.replicate (k + 1) (e, 0) ∧
      (idle 1).lastTxn = none ∧
      runSender (idle 1) [.send e2] =
        some (inflight e2 1 MINIMUM_BACKOFF 2, [.put e2 1])) ∧
    (∃ obs3,
      runSender Sender.start [.send e, .finish 404 true] = some (idle 1, obs3) ∧
      putsOf obs3 = [(e, 0)] ∧ (idle 1).lastTxn = none ∧
      runSender (idle 1) [.send e2] =
        some (inflight e2 1 MINIMUM_BACKOFF 2, [.put e2 1])) := by
  constructor
  · refine ⟨[.put e 0] ++ ((List.range k).flatMap (fun j =>
      [SendObs.timerStart (((1000 : ℚ) * backoffFrom MINIMUM_BACKOFF j).floor), .put e 0])),
      ?_, ?_, rfl, rfl⟩
    · rw [runSender_append, runSender_append]
      have hsend : runSender Sender.start [SendAction.send e] =
          some (inflight e 0 MINIMUM_BACKOFF 1, [.put e 0]) := rfl
      rw [hsend]
      simp only [Option.some_bind, Option.map_some', runSender_cycles,
        runSender_success]
      simp
    · rw [putsOf_append, putsOf_cycleObs]
      show ((e, 0) :: List.replicate k (e, 0)) = _
      rw [← List.replicate_succ]
  · exact ⟨[.put e 0, .errorSignal], rfl, rfl, rfl, rfl⟩

/-- C8 (amended): the k-th retry timer is started with
`min (5·1.25^(k-1), 30)` seconds *truncated to whole milliseconds*
(`duration_cast<milliseconds>` in `transmit_finished`), and any completion
that is not a retry resets the back-off to the 5-second floor and clears the
transaction id. -/
theorem C8_backoff_schedule (k : Nat) (e : OutEvent) :
    ∃ st obs,
      runSender Sender.start ([.send e] ++ (List.replicate k retryCycle).flatten) =
        some (st, obs) ∧
      timersOf obs =
        (List.range k).map (fun j => ((1000 : ℚ) * min (5 * (5 / 4 : ℚ) ^ j) 30).floor) ∧
      st.backoff = min (5 * (5 / 4 : ℚ) ^ k) 30 ∧
      (∃ r1 : Sender × List SendObs,
        runSender st [.finish 200 false] = some r1 ∧
        r1.1.backoff = MINIMUM_BACKOFF ∧ r1.1.lastTxn = none) ∧
      (∃ r2 : Sender × List SendObs,
        runSender st [.finish 404 true] = some r2 ∧
        r2.1.backoff = MINIMUM_BACKOFF ∧ r2.1.lastTxn = none) := by
  refine ⟨inflight e 0 (backoffFrom MINIMUM_BACKOFF k) 1,
    [SendObs.put e 0] ++ ((List.range k).flatMap (fun j =>
      [SendObs.timerStart (((1000 : ℚ) * backoffFrom MINIMUM_BACKOFF j).floor), .put e 0])),
    ?_, ?_, ?_, ?_, ?_⟩
  · rw [runSender_append]
    have hsend : runSender Sender.start [SendAction.send e] =
        some (inflight e 0 MINIMUM_BACKOFF 1, [.put e 0]) := rfl
    rw [hsend, Option.some_bind, runSender_cycles, Option.map_some']
  · rw [timersOf_append, timersOf_cycleObs]
    show (List.range k).map _ = _
    exact List.map_congr_left (fun j _ => by rw [backoffFrom_closed])
  · exact backoffFrom_closed k
  · exact ⟨(idle 1, []), runSender_success e 0 _ 1, rfl, rfl⟩
  · exact ⟨(idle 1, [.errorSignal]), runSender_permanent e 0 _ 1, rfl, rfl⟩

/-- `Rat.floor` agrees with the `Int.floor` of the floor ring. -/
theorem ratFloor_eq_intFloor (q : ℚ) : q.floor = ⌊q⌋ :=
  (Rat.floor_def' q).trans Rat.floor_def.symm

/-- C8 counterexample: the claim predicates exact delays of
`min (5·1.25^(k-1), 30)` seconds; at the third retry that value is
7812.5 ms, but `transmit_finished` starts the timer with 7812 whole
milliseconds (`duration_cast<milliseconds>` truncates). -/
theorem C8_third_retry_truncated :
    (runSender Sender.start
        ([.send ⟨"m.room.message", "hi"⟩] ++ (List.replicate 3 retryCycle).flatten)).map
      (fun r => timersOf r.2) = some [5000, 6250, 7812] ∧
    (1000 : ℚ) * min (5 * (5 / 4 : ℚ) ^ 2) 30 ≠ (7812 : ℚ) := by
  have hb1 : backoffFrom MINIMUM_BACKOFF 1 = 25 / 4 := by
    norm_num [backoffFrom, MINIMUM_BACKOFF, min_def]
  have hb2 : backoffFrom MINIMUM_BACKOFF 2 = 125 / 16 := by
    norm_num [backoffFrom, MINIMUM_BACKOFF, min_def]
  have hf0 : ((1000 : ℚ) * backoffFrom MINIMUM_BACKOFF 0).floor = 5000 := by
    rw [ratFloor_eq_intFloor]
    show (⌊(1000 : ℚ) * MINIMUM_BACKOFF⌋ : ℤ) = 5000
    rw [Int.floor_eq_iff]
    constructor <;> norm_num [MINIMUM_BACKOFF]
  have hf1 : ((1000 : ℚ) * backoffFrom MINIMUM_BACKOFF 1).floor = 6250 := by
    rw [hb1, ratFloor_eq_intFloor, Int.floor_eq_iff]
    constructor <;> norm_num
  have hf2 : ((1000 : ℚ) * backoffFrom MINIMUM_BACKOFF 2).floor = 7812 := by
    rw [hb2, ratFloor_eq_intFloor, Int.floor_eq_iff]
    constructor <;> norm_num
  constructor
  · have hsend : runSender Sender.start [SendAction.send ⟨"m.room.message", "hi"⟩] =
        some (inflight ⟨"m.room.message", "hi"⟩ 0 MINIMUM_BACKOFF 1,
          [.put ⟨"m.room.message", "hi"⟩ 0]) := rfl
    rw [runSender_append, hsend, Option.some_bind, runSender_cycles,
      Option.map_some', Option.map_some']
    congr 1
    show timersOf ([SendObs.put ⟨"m.room.message", "hi"⟩ 0] ++ _) = _
    rw [timersOf_append, timersOf_cycleObs]
    have hr3 : List.range 3 = [0, 1, 2] := rfl
    rw [hr3]
    simp only [List.map_cons, List.map_nil]
    rw [hf0, hf1, hf2]
    rfl
  · have hmin : min (5 * (5 / 4 : ℚ) ^ 2) 30 = 125 / 16 := by norm_num
    rw [hmin]
    norm_num


/-- The state of the C5 scenario: `@a:x` and `@b:x` both display as "Sam";
the name index holds the bucket `"Sam" ↦ [@a:x, @b:x]`. -/
def c5state : RoomState :=
  { members_by_id := fun u =>
      if u = "@a:x" then some ⟨"@a:x", "Sam", "", .JOIN⟩
      else if u = "@b:x" then some ⟨"@b:x", "Sam", "", .JOIN⟩
      else none,
    members_by_displayname := fun n =>
      if n = "Sam" then some ["@a:x", "@b:x"] else none }

/-- C5 counterexample: forgetting `@b:x`'s name "Sam" out of a bucket of
size exactly 2 *before* the removal makes the code emit
`member_disambiguation_changed(@a:x, "@a:x")` (the other occupant's
pre-erasure disambiguation); under the claim's reading (bucket size exactly
2 *after* the removal) no candidate exists here (one id remains and no
member's id equals "Sam"), so no emission would happen. -/
theorem C5_forget_counterexample :
    (c5state.forget_displayname (fun x => x) "@b:x" "Sam" (some ⟨"!r:x"⟩)).map
      (fun r => r.2) = some [Obs.memberDisambiguationChanged "@a:x" "@a:x"] := by
  decide

/-- C5 amended: `forget_displayname(id, old, room)` with callbacks attached
and a non-empty `old` looks up `vec = members_by_displayname[NFC(old)]`,
determines the transitively-affected candidate from the *pre-removal*
bucket — the other occupant when `vec` has size exactly 2 before the
removal of `id`, and separately the member whose user id equals `NFC(old)`
— and when exactly one of the two conditions holds emits
`member_disambiguation_changed(other, previous_disambiguation)` with the
disambiguation computed before the erasure; `id` is removed from the bucket
(exactly one occurrence, by assertion) and the bucket entry is deleted from
the map when it becomes empty. -/
theorem C5_forget_displayname_characterization
    (nfc : String → String) (s : RoomState) (id old : String) (ctx : RoomCtx)
    (s' : RoomState) (obs : List Obs)
    (h : s.forget_displayname nfc id old (some ctx) = some (s', obs))
    (hne : old ≠ "") :
    ∃ vec, s.members_by_displayname (nfc old) = some vec ∧
      s'.members_by_displayname = Function.update s.members_by_displayname (nfc old)
        (if vec.filter (· ≠ id) = [] then none else some (vec.filter (· ≠ id))) ∧
      s'.members_by_id = s.members_by_id ∧
      vec.length - (vec.filter (· ≠ id)).length = 1 ∧
      (vec.length = 2 → s.member_from_id (nfc old) = none →
        ∃ oid other d, (if vec[0]? = some id then vec[1]? else vec[0]?) = some oid ∧
          s.members_by_id oid = some other ∧
          s.member_disambiguation nfc other = some d ∧
          obs = [Obs.memberDisambiguationChanged other.id d]) ∧
      (vec.length ≠ 2 → ∀ other, s.member_from_id (nfc old) = some other →
        ∃ d, s.member_disambiguation nfc other = some d ∧
          obs = [Obs.memberDisambiguationChanged other.id d]) ∧
      ((vec.length = 2 ∧ (s.member_from_id (nfc old)).isSome = true) ∨
        (vec.length ≠ 2 ∧ s.member_from_id (nfc old) = none) → obs = []) := by
  unfold RoomState.forget_displayname at h
  rw [if_neg hne] at h
  revert h
  cases hb : s.members_by_displayname (nfc old) with
  | none => intro h; exact Option.noConfusion h
  | some vec =>
    intro h
    have h0 : (match s.forget_other id (nfc old) vec (some ctx) with
      | none => none
      | some other =>
        match (match other with
               | some m => s.member_disambiguation nfc m
               | none => some "" : Option String) with
        | none => none
        | some other_disambiguation =>
          if vec.length - (vec.filter (· ≠ id)).length ≠ 1 then none
          else
            some (s.setBuckets (Function.update s.members_by_displayname (nfc old)
                (if vec.filter (· ≠ id) = [] then none else some (vec.filter (· ≠ id)))),
              match other with
              | some m => [Obs.memberDisambiguationChanged m.id other_disambiguation]
              | none => [])) = some (s', obs) := h
    clear h
    refine ⟨vec, rfl, ?_⟩
    by_cases hA : vec.length = 2
    · cases hmx : s.member_from_id (nfc old) with
      | some other0 =>
        rw [forget_other_both s id (nfc old) vec (some ctx) hA (by rw [hmx]; rfl)] at h0
        have h2 : (if vec.length - (vec.filter (· ≠ id)).length ≠ 1 then none
            else some (s.setBuckets (Function.update s.members_by_displayname (nfc old)
                (if vec.filter (· ≠ id) = [] then none else some (vec.filter (· ≠ id)))),
              ([] : List Obs))) = some (s', obs) := h0
        clear h0
        by_cases hlen : vec.length - (vec.filter (· ≠ id)).length ≠ 1
        · rw [if_pos hlen] at h2
          exact Option.noConfusion h2
        · rw [if_neg hlen] at h2
          cases h2
          refine ⟨rfl, rfl, not_not.mp hlen, ?_, ?_, ?_⟩
          · intro _ hmx2
            exact Option.noConfusion hmx2
          · intro hA2 _ _
            exact absurd hA hA2
          · intro _
            rfl
      | none =>
        rw [forget_other_partner s id (nfc old) vec ctx hA hmx] at h0
        revert h0
        cases hoid : (if vec[0]? = some id then vec[1]? else vec[0]?) with
        | none =>
          intro h0
          exact Option.noConfusion
            (show (none : Option (RoomState × List Obs)) = some (s', obs) from h0)
        | some oid =>
          intro h0
          rw [Option.some_bind] at h0
          revert h0
          cases hom : s.members_by_id oid with
          | none =>
            intro h0
            exact Option.noConfusion
              (show (none : Option (RoomState × List Obs)) = some (s', obs) from h0)
          | some other =>
            intro h0
            have h2 : (match s.member_disambiguation nfc other with
              | none => none
              | some d =>
                if vec.length - (vec.filter (· ≠ id)).length ≠ 1 then none
                else some (s.setBuckets (Function.update s.members_by_displayname (nfc old)
                    (if vec.filter (· ≠ id) = [] then none else some (vec.filter (· ≠ id)))),
                  [Obs.memberDisambiguationChanged other.id d])) = some (s', obs) := h0
            clear h0
            revert h2
            cases hd : s.member_disambiguation nfc other with
            | none =>
              intro h2
              exact Option.noConfusion
                (show (none : Option (RoomState × List Obs)) = some (s', obs) from h2)
            | some d =>
              intro h2
              have h3 : (if vec.length - (vec.filter (· ≠ id)).length ≠ 1 then none
                  else some (s.setBuckets (Function.update s.members_by_displayname (nfc old)
                      (if vec.filter (· ≠ id) = [] then none else some (vec.filter (· ≠ id)))),
                    [Obs.memberDisambiguationChanged other.id d])) = some (s', obs) := h2
              clear h2
              by_cases hlen : vec.length - (vec.filter (· ≠ id)).length ≠ 1
              · rw [if_pos hlen] at h3
                exact Option.noConfusion h3
              · rw [if_neg hlen] at h3
                cases h3
                refine ⟨rfl, rfl, not_not.mp hlen, ?_, ?_, ?_⟩
                · intro _ _
                  exact ⟨oid, other, d, rfl, hom, hd, rfl⟩
                · intro hA2 _ _
                  exact absurd hA hA2
                · rintro (⟨-, hsome⟩ | ⟨hA2, -⟩)
                  · simp at hsome
                  · exact absurd hA hA2
    · cases hmx : s.member_from_id (nfc old) with
      | some other =>
        rw [forget_other_mxid s id (nfc old) vec ctx other hA hmx] at h0
        have h2 : (match s.member_disambiguation nfc other with
          | none => none
          | some d =>
            if vec.length - (vec.filter (· ≠ id)).length ≠ 1 then none
            else some (s.setBuckets (Function.update s.members_by_displayname (nfc old)
                (if vec.filter (· ≠ id) = [] then none else some (vec.filter (· ≠ id)))),
              [Obs.memberDisambiguationChanged other.id d])) = some (s', obs) := h0
        clear h0
        revert h2
        cases hd : s.member_disambiguation nfc other with
        | none =>
          intro h2
          exact Option.noConfusion
            (show (none : Option (RoomState × List Obs)) = some (s', obs) from h2)
        | some d =>
          intro h2
          have h3 : (if vec.length - (vec.filter (· ≠ id)).length ≠ 1 then none
              else some (s.setBuckets (Function.update s.members_by_displayname (nfc old)
                  (if vec.filter (· ≠ id) = [] then none else some (vec.filter (· ≠ id)))),
                [Obs.memberDisambiguationChanged other.id d])) = some (s', obs) := h2
          clear h2
          by_cases hlen : vec.length - (vec.filter (· ≠ id)).length ≠ 1
          · rw [if_pos hlen] at h3
            exact Option.noConfusion h3
          · rw [if_neg hlen] at h3
            cases h3
            refine ⟨rfl, rfl, not_not.mp hlen, ?_, ?_, ?_⟩
            · intro hA2 _
              exact absurd hA2 hA
            · intro _ other2 hmx2
              cases hmx2
              exact ⟨d, hd, rfl⟩
            · rintro (⟨hA2, -⟩ | ⟨-, hnone⟩)
              · exact absurd hA2 hA
              · exact Option.noConfusion hnone
      | none =>
        rw [forget_other_neither s id (nfc old) vec (some ctx) hA hmx] at h0
        have h2 : (if vec.length - (vec.filter (· ≠ id)).length ≠ 1 then none
            else some (s.setBuckets (Function.update s.members_by_displayname (nfc old)
                (if vec.filter (· ≠ id) = [] then none else some (vec.filter (· ≠ id)))),
              ([] : List Obs))) = some (s', obs) := h0
        clear h0
        by_cases hlen : vec.length - (vec.filter (· ≠ id)).length ≠ 1
        · rw [if_pos hlen] at h2
          exact Option.noConfusion h2
        · rw [if_neg hlen] at h2
          cases h2
          refine ⟨rfl, rfl, not_not.mp hlen, ?_, ?_, ?_⟩
          · intro hA2 _
            exact absurd hA2 hA
          · intro _ other2 hmx2
            exact Option.noConfusion hmx2
          · intro _
            rfl

/-- Witness for the amended C5 at the concrete two-member bucket: the
pre-removal size is 2, so `@a:x` is the unique candidate and its pre-erasure
disambiguation `"@a:x"` is emitted. -/
theorem C5_forget_displayname_characterization_witness :
    ∃ vec, c5state.members_by_displayname "Sam" = some vec ∧
      ((c5state.forget_displayname (fun x => x) "@b:x" "Sam" (some ⟨"!r:x"⟩)).getD
          (c5state, [])).1.members_by_displayname =
        Function.update c5state.members_by_displayname "Sam"
          (if vec.filter (· ≠ "@b:x") = [] then none else some (vec.filter (· ≠ "@b:x"))) ∧
      ((c5state.forget_displayname (fun x => x) "@b:x" "Sam" (some ⟨"!r:x"⟩)).getD
          (c5state, [])).1.members_by_id = c5state.members_by_id ∧
      vec.length - (vec.filter (· ≠ "@b:x")).length = 1 ∧
      (vec.length = 2 → c5state.member_from_id "Sam" = none →
        ∃ oid other d, (if vec[0]? = some "@b:x" then vec[1]? else vec[0]?) = some oid ∧
          c5state.members_by_id oid = some other ∧
          c5state.member_disambiguation (fun x => x) other = some d ∧
          ((c5state.forget_displayname (fun x => x) "@b:x" "Sam" (some ⟨"!r:x"⟩)).getD
            (c5state, [])).2 = [Obs.memberDisambiguationChanged other.id d]) ∧
      (vec.length ≠ 2 → ∀ other, c5state.member_from_id "Sam" = some other →
        ∃ d, c5state.member_disambiguation (fun x => x) other = some d ∧
          ((c5state.forget_displayname (fun x => x) "@b:x" "Sam" (some ⟨"!r:x"⟩)).getD
            (c5state, [])).2 = [Obs.memberDisambiguationChanged other.id d]) ∧
      ((vec.length = 2 ∧ (c5state.member_from_id "Sam").isSome = true) ∨
        (vec.length ≠ 2 ∧ c5state.member_from_id "Sam" = none) →
        ((c5state.forget_displayname (fun x => x) "@b:x" "Sam" (some ⟨"!r:x"⟩)).getD
          (c5state, [])).2 = []) := by
  have h : c5state.forget_displayname (fun x => x) "@b:x" "Sam" (some ⟨"!r:x"⟩) =
      some (((c5state.forget_displayname (fun x => x) "@b:x" "Sam" (some ⟨"!r:x"⟩)).getD
        (c5state, [])).1,
        ((c5state.forget_displayname (fun x => x) "@b:x" "Sam" (some ⟨"!r:x"⟩)).getD
        (c5state, [])).2) := rfl
  exact C5_forget_displayname_characterization (fun x => x) c5state "@b:x" "Sam"
    ⟨"!r:x"⟩ _ _ h (by decide)


/-! ## The name-index invariant (C1, C10) -/

/-- Bucket membership in a display-name index. -/
def InB (bk : String → Option (List String)) (n w : String) : Prop :=
  ∃ v, bk n = some v ∧ w ∈ v

/-- The right-hand side of the name-index invariant: `u` is a stored member
whose (non-empty) display name normalizes to `n` and whose membership is
displayable. -/
def HasName (nfc : String → String) (ms : String → Option Member)
    (n u : String) : Prop :=
  ∃ m, ms u = some m ∧ m.display_name ≠ "" ∧ nfc m.display_name = n ∧
    membership_displayable m.membership = true

/-- The invariant every ingestion step preserves: the name index's buckets
are exactly the displayable members keyed by their normalized display names,
with no duplicates and no empty buckets; members are stored under their own
id, are displayable, and `departed_` is clear between steps. -/
structure Inv (nfc : String → String) (s : RoomState) : Prop where
  nonempty : ∀ n v, s.members_by_displayname n = some v → v ≠ []
  nodup : ∀ n v, s.members_by_displayname n = some v → v.Nodup
  complete : ∀ n u, InB s.members_by_displayname n u ↔ HasName nfc s.members_by_id n u
  ids : ∀ u m, s.members_by_id u = some m → m.id = u
  displayable : ∀ u m, s.members_by_id u = some m → membership_displayable m.membership = true
  departed_empty : s.departed = ""

theorem InB_update (bk : String → Option (List String)) (k : String)
    (val : Option (List String)) (n w : String) :
    InB (Function.update bk k val) n w ↔
      (if n = k then ∃ v, val = some v ∧ w ∈ v else InB bk n w) := by
  unfold InB
  by_cases hn : n = k
  · subst hn
    simp [Function.update_apply]
  · simp [Function.update_apply, hn]

theorem mem_filter_ne (vec : List String) (u w : String) (hw : w ≠ u) :
    w ∈ vec.filter (· ≠ u) ↔ w ∈ vec := by
  simp [List.mem_filter, hw]

theorem not_mem_filter_self (vec : List String) (u : String) :
    u ∉ vec.filter (· ≠ u) := by
  simp [List.mem_filter]

/-- State effect of `forget_displayname` on success: the member map,
`departed_` and all metadata are untouched; when the old name is non-empty
the normalized bucket existed, lost exactly one occurrence of `id`, and was
erased if it became empty. -/
theorem forget_displayname_state (nfc : String → String) (s : RoomState)
    (id old : String) (room : Option RoomCtx) (s' : RoomState) (o : List Obs)
    (h : s.forget_displayname nfc id old room = some (s', o)) :
    s'.members_by_id = s.members_by_id ∧ s'.departed = s.departed ∧
    s'.name = s.name ∧ s'.canonical_alias = s.canonical_alias ∧
    s'.topic = s.topic ∧ s'.avatar = s.avatar ∧ s'.aliases = s.aliases ∧
    ((old = "" ∧ s' = s) ∨
     (old ≠ "" ∧ ∃ vec, s.members_by_displayname (nfc old) = some vec ∧
        vec.length - (vec.filter (· ≠ id)).length = 1 ∧
        s'.members_by_displayname = Function.update s.members_by_displayname (nfc old)
          (if vec.filter (· ≠ id) = [] then none
           else some (vec.filter (· ≠ id))))) := by
  unfold RoomState.forget_displayname at h
  split at h
  · cases h
    rename_i hold
    exact ⟨rfl, rfl, rfl, rfl, rfl, rfl, rfl, Or.inl ⟨hold, rfl⟩⟩
  · rename_i hold
    split at h
    · exact Option.noConfusion h
    · rename_i vec hvec
      split at h
      · exact Option.noConfusion h
      · split at h
        · exact Option.noConfusion h
        · split at h
          · exact Option.noConfusion h
          · rename_i hlen
            cases h
            exact ⟨rfl, rfl, rfl, rfl, rfl, rfl, rfl,
              Or.inr ⟨hold, vec, hvec, not_not.mp hlen, rfl⟩⟩

/-- State effect of `record_displayname` on success: the member map,
`departed_` and all metadata are untouched; when the name is non-empty,
`id` was not yet in the normalized bucket and got appended to it. -/
theorem record_displayname_state (nfc : String → String) (s : RoomState)
    (id name : String) (room : Option RoomCtx) (s' : RoomState) (o : List Obs)
    (h : s.record_displayname nfc id name room = some (s', o)) :
    s'.members_by_id = s.members_by_id ∧ s'.departed = s.departed ∧
    s'.name = s.name ∧ s'.canonical_alias = s.canonical_alias ∧
    s'.topic = s.topic ∧ s'.avatar = s.avatar ∧ s'.aliases = s.aliases ∧
    ((name = "" ∧ s' = s) ∨
     (name ≠ "" ∧ id ∉ (s.members_by_displayname (nfc name)).getD [] ∧
      s'.members_by_displayname = Function.update s.members_by_displayname (nfc name)
        (some ((s.members_by_displayname (nfc name)).getD [] ++ [id])))) := by
  unfold RoomState.record_displayname at h
  split at h
  · cases h
    rename_i hname
    exact ⟨rfl, rfl, rfl, rfl, rfl, rfl, rfl, Or.inl ⟨hname, rfl⟩⟩
  · split at h
    · exact Option.noConfusion h
    · rename_i hname hmem
      split at h
      · cases h
        exact ⟨rfl, rfl, rfl, rfl, rfl, rfl, rfl, Or.inr ⟨hname, hmem, rfl⟩⟩
      · split at h
        · cases h
          exact ⟨rfl, rfl, rfl, rfl, rfl, rfl, rfl, Or.inr ⟨hname, hmem, rfl⟩⟩
        · split at h
          · split at h
            · exact Option.noConfusion h
            · split at h
              · exact Option.noConfusion h
              · cases h
                exact ⟨rfl, rfl, rfl, rfl, rfl, rfl, rfl, Or.inr ⟨hname, hmem, rfl⟩⟩
          · split at h
            · cases h
              exact ⟨rfl, rfl, rfl, rfl, rfl, rfl, rfl, Or.inr ⟨hname, hmem, rfl⟩⟩
            · cases h
              exact ⟨rfl, rfl, rfl, rfl, rfl, rfl, rfl, Or.inr ⟨hname, hmem, rfl⟩⟩


theorem mem_getD_nil (x : Option (List String)) (w : String) :
    w ∈ x.getD [] ↔ ∃ v, x = some v ∧ w ∈ v := by
  cases x <;> simp

/-- Effect of a successful `forget_displayname` on bucket membership: other
ids keep their buckets, the forgotten id is in no bucket afterwards, and
no-duplicate / no-empty-bucket are maintained. -/
theorem forget_buckets_spec (nfc : String → String)
    (bk bk3 : String → Option (List String)) (mid old : String)
    (hne : ∀ n v, bk n = some v → v ≠ [])
    (hnd : ∀ n v, bk n = some v → v.Nodup)
    (huniq : ∀ n, InB bk n mid → (old ≠ "" ∧ n = nfc old))
    (hcase : (old = "" ∧ bk3 = bk) ∨
      (old ≠ "" ∧ ∃ vec, bk (nfc old) = some vec ∧
        bk3 = Function.update bk (nfc old)
          (if vec.filter (· ≠ mid) = [] then none
           else some (vec.filter (· ≠ mid))))) :
    (∀ n v, bk3 n = some v → v ≠ []) ∧
    (∀ n v, bk3 n = some v → v.Nodup) ∧
    (∀ n w, w ≠ mid → (InB bk3 n w ↔ InB bk n w)) ∧
    (∀ n, ¬InB bk3 n mid) := by
  rcases hcase with ⟨hold, rfl⟩ | ⟨hold, vec, hvec, rfl⟩
  · exact ⟨hne, hnd, fun n w _ => Iff.rfl,
      fun n hin => (((huniq n hin).1) hold).elim⟩
  · refine ⟨?_, ?_, ?_, ?_⟩
    · intro n v hv
      rw [Function.update_apply] at hv
      by_cases hn : n = nfc old
      · rw [if_pos hn] at hv
        split at hv
        · exact Option.noConfusion hv
        · cases hv
          rename_i hnil
          exact hnil
      · rw [if_neg hn] at hv
        exact hne n v hv
    · intro n v hv
      rw [Function.update_apply] at hv
      by_cases hn : n = nfc old
      · rw [if_pos hn] at hv
        split at hv
        · exact Option.noConfusion hv
        · cases hv
          exact (hnd _ _ hvec).filter _
      · rw [if_neg hn] at hv
        exact hnd n v hv
    · intro n w hw
      rw [InB_update]
      by_cases hn : n = nfc old
      · rw [if_pos hn]
        subst hn
        constructor
        · rintro ⟨v, hv, hwv⟩
          split at hv
          · exact Option.noConfusion hv
          · cases hv
            exact ⟨vec, hvec, ((mem_filter_ne vec mid w hw).mp hwv)⟩
        · rintro ⟨v, hv, hwv⟩
          rw [hvec] at hv
          cases hv
          split
          · rename_i hnil
            exact absurd ((mem_filter_ne vec mid w hw).mpr hwv)
              (by rw [hnil]; exact List.not_mem_nil w)
          · exact ⟨_, rfl, (mem_filter_ne vec mid w hw).mpr hwv⟩
      · rw [if_neg hn]
    · intro n hin
      rw [InB_update] at hin
      by_cases hn : n = nfc old
      · rw [if_pos hn] at hin
        obtain ⟨v, hv, hmv⟩ := hin
        split at hv
        · exact Option.noConfusion hv
        · cases hv
          exact not_mem_filter_self vec mid hmv
      · rw [if_neg hn] at hin
        exact hn ((huniq n hin).2)

/-- Effect of a successful `record_displayname` on bucket membership, given
the recorded id is currently in no bucket: other ids keep their buckets and
the id ends up exactly in its new name's bucket. -/
theorem record_buckets_spec (nfc : String → String)
    (bk3 bk4 : String → Option (List String)) (mid new : String)
    (hne3 : ∀ n v, bk3 n = some v → v ≠ [])
    (hnd3 : ∀ n v, bk3 n = some v → v.Nodup)
    (hmid3 : ∀ n, ¬InB bk3 n mid)
    (hcase : (new = "" ∧ bk4 = bk3) ∨
      (new ≠ "" ∧ mid ∉ (bk3 (nfc new)).getD [] ∧
        bk4 = Function.update bk3 (nfc new)
          (some ((bk3 (nfc new)).getD [] ++ [mid])))) :
    (∀ n v, bk4 n = some v → v ≠ []) ∧
    (∀ n v, bk4 n = some v → v.Nodup) ∧
    (∀ n w, w ≠ mid → (InB bk4 n w ↔ InB bk3 n w)) ∧
    (∀ n, InB bk4 n mid ↔ (new ≠ "" ∧ n = nfc new)) := by
  rcases hcase with ⟨hnew, rfl⟩ | ⟨hnew, hguard, rfl⟩
  · exact ⟨hne3, hnd3, fun n w _ => Iff.rfl,
      fun n => ⟨fun hin => (hmid3 n hin).elim, fun ⟨hc, _⟩ => (hc hnew).elim⟩⟩
  · refine ⟨?_, ?_, ?_, ?_⟩
    · intro n v hv
      rw [Function.update_apply] at hv
      by_cases hn : n = nfc new
      · rw [if_pos hn] at hv
        cases hv
        simp
      · rw [if_neg hn] at hv
        exact hne3 n v hv
    · intro n v hv
      rw [Function.update_apply] at hv
      by_cases hn : n = nfc new
      · rw [if_pos hn] at hv
        cases hv
        rw [List.nodup_append]
        refine ⟨?_, List.nodup_singleton mid, ?_⟩
        · cases hb : bk3 (nfc new) with
          | none => simp
          | some v0 => simpa [hb] using hnd3 _ _ hb
        · intro a ha hb
          rw [List.mem_singleton] at hb
          subst hb
          exact hguard ha
      · rw [if_neg hn] at hv
        exact hnd3 n v hv
    · intro n w hw
      rw [InB_update]
      by_cases hn : n = nfc new
      · rw [if_pos hn]
        subst hn
        constructor
        · rintro ⟨v, hv, hwv⟩
          cases hv
          rw [List.mem_append] at hwv
          rcases hwv with hwv | hwv
          · exact (mem_getD_nil _ _).mp hwv
          · rw [List.mem_singleton] at hwv
            exact absurd hwv hw
        · rintro ⟨v, hv, hwv⟩
          exact ⟨_, rfl, List.mem_append.mpr (Or.inl ((mem_getD_nil _ _).mpr ⟨v, hv, hwv⟩))⟩
      · rw [if_neg hn]
    · intro n
      rw [InB_update]
      by_cases hn : n = nfc new
      · rw [if_pos hn]
        constructor
        · intro _
          exact ⟨hnew, hn⟩
        · intro _
          exact ⟨_, rfl, List.mem_append.mpr (Or.inr (List.mem_singleton.mpr rfl))⟩
      · rw [if_neg hn]
        constructor
        · intro hin
          exact (hmid3 n hin).elim
        · rintro ⟨-, hn2⟩
          exact (hn hn2).elim


/-- Combined index effect of the shared re-indexing step (forget the old
name, record the new one): metadata and members untouched; bucket membership
of other ids untouched; the member ends up exactly in its new name's bucket
(or keeps its old position when the raw name did not change); buckets stay
duplicate-free and non-empty. -/
theorem reindex_index_spec (nfc : String → String) (s2 : RoomState)
    (mid old new : String) (room : Option RoomCtx) (s4 : RoomState) (o : List Obs)
    (h : s2.reindex nfc mid old new room = some (s4, o))
    (hne : ∀ n v, s2.members_by_displayname n = some v → v ≠ [])
    (hnd : ∀ n v, s2.members_by_displayname n = some v → v.Nodup)
    (huniq : ∀ n, InB s2.members_by_displayname n mid → (old ≠ "" ∧ n = nfc old)) :
    s4.members_by_id = s2.members_by_id ∧ s4.departed = s2.departed ∧
    s4.name = s2.name ∧ s4.canonical_alias = s2.canonical_alias ∧
    s4.topic = s2.topic ∧ s4.avatar = s2.avatar ∧ s4.aliases = s2.aliases ∧
    (∀ n v, s4.members_by_displayname n = some v → v ≠ []) ∧
    (∀ n v, s4.members_by_displayname n = some v → v.Nodup) ∧
    (∀ n w, w ≠ mid →
      (InB s4.members_by_displayname n w ↔ InB s2.members_by_displayname n w)) ∧
    (∀ n, InB s4.members_by_displayname n mid ↔
      (if new = old then InB s2.members_by_displayname n mid
       else new ≠ "" ∧ n = nfc new)) := by
  unfold RoomState.reindex at h
  by_cases hch : new ≠ old
  · rw [if_pos hch] at h
    revert h
    cases h1 : s2.forget_displayname nfc mid old room with
    | none => intro h; exact Option.noConfusion h
    | some p1 =>
      intro h
      have h2' : (match p1.1.record_displayname nfc mid new room with
        | none => none
        | some p2 => some (p2.1, p1.2 ++ p2.2)) = some (s4, o) := h
      clear h
      revert h2'
      cases h2 : p1.1.record_displayname nfc mid new room with
      | none => intro h'; exact Option.noConfusion h'
      | some p2 =>
        intro h'
        cases h'
        obtain ⟨hm1, hd1, hn1, hc1, ht1, ha1, hal1, hcase1⟩ :=
          forget_displayname_state nfc s2 mid old room p1.1 p1.2 (by rw [h1])
        obtain ⟨hm2, hd2, hn2, hc2, ht2, ha2, hal2, hcase2⟩ :=
          record_displayname_state nfc p1.1 mid new room p2.1 p2.2 (by rw [h2])
        have hcase1' : (old = "" ∧ p1.1.members_by_displayname = s2.members_by_displayname) ∨
            (old ≠ "" ∧ ∃ vec, s2.members_by_displayname (nfc old) = some vec ∧
              p1.1.members_by_displayname = Function.update s2.members_by_displayname (nfc old)
                (if vec.filter (· ≠ mid) = [] then none
                 else some (vec.filter (· ≠ mid)))) := by
          rcases hcase1 with ⟨h0, heq⟩ | ⟨h0, vec, hvec, _, heq⟩
          · exact Or.inl ⟨h0, by rw [heq]⟩
          · exact Or.inr ⟨h0, vec, hvec, heq⟩
        obtain ⟨hne3, hnd3, hoth3, hmid3⟩ :=
          forget_buckets_spec nfc s2.members_by_displayname p1.1.members_by_displayname
            mid old hne hnd huniq hcase1'
        have hcase2' : (new = "" ∧ p2.1.members_by_displayname = p1.1.members_by_displayname) ∨
            (new ≠ "" ∧ mid ∉ (p1.1.members_by_displayname (nfc new)).getD [] ∧
              p2.1.members_by_displayname = Function.update p1.1.members_by_displayname (nfc new)
                (some ((p1.1.members_by_displayname (nfc new)).getD [] ++ [mid]))) := by
          rcases hcase2 with ⟨h0, heq⟩ | hrest
          · exact Or.inl ⟨h0, by rw [heq]⟩
          · exact Or.inr hrest
        obtain ⟨hne4, hnd4, hoth4, hmid4⟩ :=
          record_buckets_spec nfc p1.1.members_by_displayname p2.1.members_by_displayname
            mid new hne3 hnd3 hmid3 hcase2'
        refine ⟨hm2.trans hm1, hd2.trans hd1, hn2.trans hn1, hc2.trans hc1,
          ht2.trans ht1, ha2.trans ha1, hal2.trans hal1, hne4, hnd4, ?_, ?_⟩
        · intro n w hw
          exact (hoth4 n w hw).trans (hoth3 n w hw)
        · intro n
          rw [if_neg hch]
          exact hmid4 n
  · rw [if_neg hch] at h
    cases h
    rw [not_not] at hch
    exact ⟨rfl, rfl, rfl, rfl, rfl, rfl, rfl, hne, hnd, fun n w _ => Iff.rfl,
      fun n => by rw [if_pos hch]⟩


/-- `prune_departed` is a no-op when `departed_` is clear. -/
theorem prune_noop (nfc : String → String) (s : RoomState) (room : Option RoomCtx)
    (h : s.departed = "") : s.prune_departed nfc room = some (s, []) := by
  unfold RoomState.prune_departed
  rw [if_pos h]

/-- The invariant only reads the member map, the name index and `departed_`. -/
theorem Inv_congr (nfc : String → String) (s s' : RoomState)
    (hm : s'.members_by_id = s.members_by_id)
    (hb : s'.members_by_displayname = s.members_by_displayname)
    (hd : s'.departed = s.departed)
    (h : Inv nfc s) : Inv nfc s' := by
  refine ⟨?_, ?_, ?_, ?_, ?_, ?_⟩
  · rw [hb]; exact h.nonempty
  · rw [hb]; exact h.nodup
  · intro n u
    unfold InB HasName
    rw [hb, hm]
    exact h.complete n u
  · rw [hm]; exact h.ids
  · rw [hm]; exact h.displayable
  · rw [hd]; exact h.departed_empty

/-- An invariant-satisfying state passes through its paired
`prune_departed` unchanged. -/
theorem inv_then_prune (nfc : String → String) (s1 : RoomState)
    (room : Option RoomCtx) (s2 : RoomState) (o2 : List Obs)
    (h : Inv nfc s1) (hp : s1.prune_departed nfc room = some (s2, o2)) :
    Inv nfc s2 := by
  rw [prune_noop nfc s1 room h.departed_empty] at hp
  have h12 : s1 = s2 := congrArg Prod.fst (Option.some.inj hp)
  exact h12 ▸ h

/-- Invariant preservation through the core of the Invite/Join case: the
member written under `uid` ends up indexed exactly under its new normalized
name, every other member's index entries are untouched. -/
theorem membership_join_core_inv (nfc : String → String) (s : RoomState)
    (uid : String) (member0 : Member) (content : Content)
    (room : Option RoomCtx) (mem : Membership) (s' : RoomState) (o : List Obs)
    (hinv : Inv nfc s)
    (hid : member0.id = uid)
    (hm0 : ∀ m, s.members_by_id uid = some m → m = member0)
    (hm0e : s.members_by_id uid = none → member0.display_name = "")
    (hdisp : membership_displayable
      ((parse_membership (content.membership.getD "")).getD .LEAVE) = true)
    (h : RoomState.membership_join_core nfc
          (s.setMembers (Function.update s.members_by_id uid (some member0)))
          uid member0 content room mem = some (s', o)) :
    Inv nfc s' := by
  unfold RoomState.membership_join_core at h
  set s1 : RoomState := s.setMembers (Function.update s.members_by_id uid (some member0)) with hs1def
  set newM : Member := member0.update_membership content with hnewMdef
  have hid2 : newM.id = uid := hid
  rw [hid2] at h
  revert h
  cases hname : s1.member_name nfc member0 with
  | none => intro h; exact Option.noConfusion h
  | some old_member_name =>
    intro h
    revert h
    cases hre : (s1.setMembers (Function.update s1.members_by_id uid (some newM))).reindex
        nfc uid member0.display_name newM.display_name room with
    | none => intro h; exact Option.noConfusion h
    | some q =>
      intro h
      have hs' : s' = q.1 := (congrArg Prod.fst (Option.some.inj h)).symm
      have huniq : ∀ n, InB (s1.setMembers (Function.update s1.members_by_id uid
          (some newM))).members_by_displayname n uid →
          (member0.display_name ≠ "" ∧ n = nfc member0.display_name) := by
        intro n hin
        obtain ⟨m, hmu, hdn, hnfc, _⟩ := (hinv.complete n uid).mp hin
        have hmm : m = member0 := hm0 m hmu
        refine ⟨by rw [← hmm]; exact hdn, by rw [← hmm]; exact hnfc.symm⟩
      obtain ⟨hm, hdep, _, _, _, _, _, hne4, hnd4, hoth, hmidc⟩ :=
        reindex_index_spec nfc (s1.setMembers (Function.update s1.members_by_id uid (some newM)))
          uid member0.display_name newM.display_name room q.1 q.2 (by rw [hre])
          (fun n v hv => hinv.nonempty n v hv)
          (fun n v hv => hinv.nodup n v hv)
          huniq
      have hmem : q.1.members_by_id = Function.update s.members_by_id uid (some newM) := by
        rw [hm]
        show Function.update (Function.update s.members_by_id uid (some member0)) uid (some newM)
          = Function.update s.members_by_id uid (some newM)
        rw [Function.update_idem]
      have hdep' : q.1.departed = "" := by
        rw [hdep]; exact hinv.departed_empty
      have hdispM : membership_displayable newM.membership = true := hdisp
      have hinvq : Inv nfc q.1 := by
        refine ⟨hne4, hnd4, ?_, ?_, ?_, hdep'⟩
        · intro n u
          by_cases hu : u = uid
          · subst hu
            constructor
            · intro hin
              refine ⟨newM, by rw [hmem, Function.update_same], ?_, ?_, hdispM⟩
              · by_cases hch : newM.display_name = member0.display_name
                · have hin2 := (hmidc n).mp hin
                  rw [if_pos hch] at hin2
                  obtain ⟨m, hmu, hdn, _, _⟩ := (hinv.complete n u).mp hin2
                  have hmm : m = member0 := hm0 m hmu
                  rw [hch, ← hmm]
                  exact hdn
                · have hin2 := (hmidc n).mp hin
                  rw [if_neg hch] at hin2
                  exact hin2.1
              · by_cases hch : newM.display_name = member0.display_name
                · have hin2 := (hmidc n).mp hin
                  rw [if_pos hch] at hin2
                  obtain ⟨m, hmu, _, hnfc, _⟩ := (hinv.complete n u).mp hin2
                  have hmm : m = member0 := hm0 m hmu
                  rw [hch, ← hmm]
                  exact hnfc
                · have hin2 := (hmidc n).mp hin
                  rw [if_neg hch] at hin2
                  exact hin2.2.symm
            · rintro ⟨m, hmu, hdn, hnfc, _⟩
              rw [hmem, Function.update_same] at hmu
              have hmN : m = newM := (Option.some.inj hmu).symm
              subst hmN
              rw [hmidc n]
              by_cases hch : newM.display_name = member0.display_name
              · rw [if_pos hch]
                cases hms : s.members_by_id u with
                | none =>
                  exact absurd (by rw [hch]; exact hm0e hms) hdn
                | some m0 =>
                  have hm00 : m0 = member0 := hm0 m0 hms
                  refine (hinv.complete n u).mpr ⟨m0, hms, ?_, ?_,
                    hinv.displayable u m0 hms⟩
                  · rw [hm00, ← hch]; exact hdn
                  · rw [hm00, ← hch]; exact hnfc
              · rw [if_neg hch]
                exact ⟨hdn, hnfc.symm⟩
          · have htrans : HasName nfc q.1.members_by_id n u ↔
                HasName nfc s.members_by_id n u := by
              unfold HasName
              rw [hmem, Function.update_apply, if_neg hu]
            exact (hoth n u hu).trans ((hinv.complete n u).trans htrans.symm)
        · intro u m hmu
          rw [hmem, Function.update_apply] at hmu
          by_cases hu : u = uid
          · rw [if_pos hu] at hmu
            rw [← Option.some.inj hmu, hu]
            exact hid2
          · rw [if_neg hu] at hmu
            exact hinv.ids u m hmu
        · intro u m hmu
          rw [hmem, Function.update_apply] at hmu
          by_cases hu : u = uid
          · rw [if_pos hu] at hmu
            rw [← Option.some.inj hmu]
            exact hdispM
          · rw [if_neg hu] at hmu
            exact hinv.displayable u m hmu
      rw [hs']
      exact hinvq

/-- Invariant preservation through the Invite/Join case of
`update_membership`. -/
theorem membership_join_inv (nfc : String → String) (s : RoomState) (uid : String)
    (content : Content) (room : Option RoomCtx) (mem : Membership)
    (s' : RoomState) (o : List Obs) (hinv : Inv nfc s)
    (hdisp : membership_displayable
      ((parse_membership (content.membership.getD "")).getD .LEAVE) = true)
    (h : s.membership_join nfc uid content room mem = some (s', o)) :
    Inv nfc s' := by
  unfold RoomState.membership_join at h
  refine membership_join_core_inv nfc s uid _ content room mem s' o hinv ?_ ?_ ?_ hdisp h
  · cases hms : s.members_by_id uid with
    | none => rfl
    | some m => exact hinv.ids uid m hms
  · intro m hms
    rw [hms]
    rfl
  · intro hms
    rw [hms]
    rfl


/-- Invariant preservation through the Leave/Ban case of
`update_membership` composed with its paired `prune_departed`: the member is
overwritten, re-indexed, marked in `departed_`, and the prune then removes
both the member and its index entry, restoring the invariant. -/
theorem membership_leave_prune_inv (nfc : String → String) (s : RoomState)
    (uid : String) (content : Content) (room : Option RoomCtx) (mem : Membership)
    (s1 : RoomState) (o1 : List Obs) (s2 : RoomState) (o2 : List Obs)
    (hinv : Inv nfc s) (huid : uid ≠ "")
    (h1 : s.membership_leave nfc uid content room mem = some (s1, o1))
    (h2 : s1.prune_departed nfc room = some (s2, o2)) :
    Inv nfc s2 := by
  unfold RoomState.membership_leave at h1
  revert h1
  cases hms : s.members_by_id uid with
  | none =>
    intro h1
    have hss : s = s1 := congrArg Prod.fst (Option.some.inj h1)
    rw [← hss] at h2
    exact inv_then_prune nfc s room s2 o2 hinv h2
  | some member0 =>
    intro h1
    set newM : Member := member0.update_membership content with hnewMdef
    have hid2 : newM.id = uid := hinv.ids uid member0 hms
    have h1' : (match (s.setMembers (Function.update s.members_by_id uid (some newM))).reindex
          nfc newM.id member0.display_name newM.display_name room with
        | none => (none : Option (RoomState × List Obs))
        | some q =>
          if q.1.departed ≠ "" then none
          else some ({ q.1 with departed := newM.id },
            leftObs room uid mem ++ q.2 ++
              (if room.isSome then [Obs.membershipChanged newM.id mem] else []))) =
        some (s1, o1) := h1
    clear h1
    rw [hid2] at h1'
    revert h1'
    cases hre : (s.setMembers (Function.update s.members_by_id uid (some newM))).reindex
        nfc uid member0.display_name newM.display_name room with
    | none => intro h1'; exact Option.noConfusion h1'
    | some q =>
      intro h1'
      have h1n : (if q.1.departed ≠ "" then (none : Option (RoomState × List Obs))
          else some ({ q.1 with departed := uid },
            leftObs room uid mem ++ q.2 ++
              (if room.isSome then [Obs.membershipChanged uid mem] else []))) =
          some (s1, o1) := h1'
      clear h1'
      by_cases hqdep : q.1.departed ≠ ""
      · rw [if_pos hqdep] at h1n
        exact Option.noConfusion h1n
      · rw [if_neg hqdep] at h1n
        have hs1 : s1 = { q.1 with departed := uid } :=
          (congrArg Prod.fst (Option.some.inj h1n)).symm
        subst hs1
        have huniq : ∀ n, InB (s.setMembers (Function.update s.members_by_id uid
            (some newM))).members_by_displayname n uid →
            (member0.display_name ≠ "" ∧ n = nfc member0.display_name) := by
          intro n hin
          obtain ⟨m, hmu, hdn, hnfc, _⟩ := (hinv.complete n uid).mp hin
          have hmm : m = member0 := (Option.some.inj (hms.symm.trans hmu)).symm
          exact ⟨by rw [← hmm]; exact hdn, by rw [← hmm]; exact hnfc.symm⟩
        obtain ⟨hm, hdep, _, _, _, _, _, hne4, hnd4, hoth, hmidc⟩ :=
          reindex_index_spec nfc (s.setMembers (Function.update s.members_by_id uid (some newM)))
            uid member0.display_name newM.display_name room q.1 q.2 (by rw [hre])
            (fun n v hv => hinv.nonempty n v hv)
            (fun n v hv => hinv.nodup n v hv)
            huniq
        have hq1m : q.1.members_by_id = Function.update s.members_by_id uid (some newM) := hm
        unfold RoomState.prune_departed at h2
        rw [if_neg (show ¬(({ q.1 with departed := uid } : RoomState).departed = "") from huid)] at h2
        have h2' : (match q.1.members_by_id uid with
            | none => (none : Option (RoomState × List Obs))
            | some member =>
              (RoomState.forget_displayname nfc { q.1 with departed := uid } uid
                  member.display_name room).bind
                (fun p => some ({ p.1 with
                  members_by_id := Function.update p.1.members_by_id uid none,
                  departed := "" }, p.2))) = some (s2, o2) := h2
        clear h2
        rw [hq1m, Function.update_same] at h2'
        obtain ⟨p3, hforget, hout⟩ := Option.bind_eq_some.mp h2'
        have hs2 : s2 = { p3.1 with
            members_by_id := Function.update p3.1.members_by_id uid none,
            departed := "" } := (congrArg Prod.fst (Option.some.inj hout)).symm
        subst hs2
        obtain ⟨hp3m, hp3d, _, _, _, _, _, hcase3⟩ :=
          forget_displayname_state nfc { q.1 with departed := uid } uid
            newM.display_name room p3.1 p3.2 (by rw [hforget])
        have hp3m' : p3.1.members_by_id = q.1.members_by_id := hp3m
        have hcase3' : (newM.display_name = "" ∧ p3.1.members_by_displayname =
              ({ q.1 with departed := uid } : RoomState).members_by_displayname) ∨
            (newM.display_name ≠ "" ∧ ∃ vec,
              ({ q.1 with departed := uid } : RoomState).members_by_displayname
                (nfc newM.display_name) = some vec ∧
              p3.1.members_by_displayname = Function.update
                ({ q.1 with departed := uid } : RoomState).members_by_displayname
                (nfc newM.display_name)
                (if vec.filter (· ≠ uid) = [] then none
                 else some (vec.filter (· ≠ uid)))) := by
          rcases hcase3 with ⟨h0, heq⟩ | ⟨h0, vec, hvec, _, heq⟩
          · exact Or.inl ⟨h0, by rw [heq]⟩
          · exact Or.inr ⟨h0, vec, hvec, heq⟩
        have huniq2 : ∀ n, InB ({ q.1 with departed := uid } : RoomState).members_by_displayname
            n uid → (newM.display_name ≠ "" ∧ n = nfc newM.display_name) := by
          intro n hin
          have hin' := (hmidc n).mp hin
          by_cases hch : newM.display_name = member0.display_name
          · rw [if_pos hch] at hin'
            obtain ⟨m, hmu, hdn, hnfc, _⟩ := (hinv.complete n uid).mp hin'
            have hmm : m = member0 := (Option.some.inj (hms.symm.trans hmu)).symm
            exact ⟨by rw [hch, ← hmm]; exact hdn, by rw [hch, ← hmm]; exact hnfc.symm⟩
          · rw [if_neg hch] at hin'
            exact hin'
        obtain ⟨hne5, hnd5, hoth5, hnone5⟩ :=
          forget_buckets_spec nfc
            ({ q.1 with departed := uid } : RoomState).members_by_displayname
            p3.1.members_by_displayname uid newM.display_name
            (fun n v hv => hne4 n v hv) (fun n v hv => hnd4 n v hv) huniq2 hcase3'
        refine ⟨fun n v hv => hne5 n v hv, fun n v hv => hnd5 n v hv, ?_, ?_, ?_, rfl⟩
        · intro n u
          by_cases hu : u = uid
          · constructor
            · intro hin
              exact absurd (hu ▸ hin) (hnone5 n)
            · rintro ⟨m, hmu, _, _, _⟩
              have hmu' : Function.update p3.1.members_by_id uid none u = some m := hmu
              rw [hu, Function.update_same] at hmu'
              exact Option.noConfusion hmu'
          · have hfm : Function.update p3.1.members_by_id uid none u = s.members_by_id u := by
              rw [Function.update_apply, if_neg hu, hp3m', hq1m,
                Function.update_apply, if_neg hu]
            have htrans : HasName nfc (Function.update p3.1.members_by_id uid none) n u ↔
                HasName nfc s.members_by_id n u := by
              unfold HasName
              rw [hfm]
            exact ((hoth5 n u hu).trans ((hoth n u hu).trans (hinv.complete n u))).trans
              htrans.symm
        · intro u m hmu
          have hmu' : Function.update p3.1.members_by_id uid none u = some m := hmu
          rw [Function.update_apply] at hmu'
          by_cases hu : u = uid
          · rw [if_pos hu] at hmu'
            exact Option.noConfusion hmu'
          · rw [if_neg hu, hp3m', hq1m, Function.update_apply, if_neg hu] at hmu'
            exact hinv.ids u m hmu'
        · intro u m hmu
          have hmu' : Function.update p3.1.members_by_id uid none u = some m := hmu
          rw [Function.update_apply] at hmu'
          by_cases hu : u = uid
          · rw [if_pos hu] at hmu'
            exact Option.noConfusion hmu'
          · rw [if_neg hu, hp3m', hq1m, Function.update_apply, if_neg hu] at hmu'
            exact hinv.displayable u m hmu'



/-- First components of equal `some`-wrapped pairs are equal. -/
theorem some_pair_fst {α β : Type _} {x x' : α} {y y' : β}
    (h : (some (x, y) : Option (α × β)) = some (x', y')) : x = x' :=
  congrArg Prod.fst (Option.some.inj h)

/-- C1: name-index consistency.  After any ingestion step (a
`RoomState::dispatch` followed by its paired `prune_departed`, modeled by
`afterDispatchPrune`, which keeps the pre-state on the exceptional paths on
which the C++ process would have aborted), the display-name index maps every
normalized name to exactly the stored members whose non-empty display name
normalizes to it and whose membership is displayable, with no duplicate ids
and no empty buckets (`Inv`).  The member event's state key is required to
be a non-empty user id, as every real Matrix member event guarantees. -/
theorem C1_name_index_invariant (nfc : String → String) (s : RoomState)
    (e : Event) (room : Option RoomCtx) (hinv : Inv nfc s)
    (hsk : e.type = "m.room.member" → e.state_key ≠ "") :
    Inv nfc (s.afterDispatchPrune nfc e room) := by
  unfold RoomState.afterDispatchPrune
  cases hdp : s.dispatchPrune nfc e room with
  | none => exact hinv
  | some r =>
    show Inv nfc r.1
    unfold RoomState.dispatchPrune at hdp
    obtain ⟨x, hd, hrest⟩ := Option.bind_eq_some.mp hdp
    obtain ⟨s1, o1, b1⟩ := x
    obtain ⟨y, hp, hout⟩ := Option.bind_eq_some.mp hrest
    obtain ⟨s2, o2⟩ := y
    have hr : r = (s2, o1 ++ o2, b1) := (Option.some.inj hout).symm
    rw [hr]
    show Inv nfc s2
    simp only [RoomState.dispatch] at hd
    by_cases h1 : e.type = "m.room.message"
    · rw [if_pos h1] at hd
      exact inv_then_prune nfc s1 room s2 o2
        (some_pair_fst hd ▸ hinv) hp
    rw [if_neg h1] at hd
    by_cases h2 : e.type = "m.room.aliases"
    · rw [if_pos h2] at hd
      exact inv_then_prune nfc s1 room s2 o2
        (some_pair_fst hd ▸ Inv_congr nfc s _ rfl rfl rfl hinv) hp
    rw [if_neg h2] at hd
    by_cases h3 : e.type = "m.room.canonical_alias"
    · rw [if_pos h3] at hd
      exact inv_then_prune nfc s1 room s2 o2
        (some_pair_fst hd ▸ Inv_congr nfc s _ rfl rfl rfl hinv) hp
    rw [if_neg h3] at hd
    by_cases h4 : e.type = "m.room.name"
    · rw [if_pos h4] at hd
      exact inv_then_prune nfc s1 room s2 o2
        (some_pair_fst hd ▸ Inv_congr nfc s _ rfl rfl rfl hinv) hp
    rw [if_neg h4] at hd
    by_cases h5 : e.type = "m.room.topic"
    · rw [if_pos h5] at hd
      exact inv_then_prune nfc s1 room s2 o2
        (some_pair_fst hd ▸ Inv_congr nfc s _ rfl rfl rfl hinv) hp
    rw [if_neg h5] at hd
    by_cases h6 : e.type = "m.room.avatar"
    · rw [if_pos h6] at hd
      exact inv_then_prune nfc s1 room s2 o2
        (some_pair_fst hd ▸ Inv_congr nfc s _ rfl rfl rfl hinv) hp
    rw [if_neg h6] at hd
    by_cases h7 : e.type = "m.room.create"
    · rw [if_pos h7] at hd
      exact inv_then_prune nfc s1 room s2 o2
        (some_pair_fst hd ▸ hinv) hp
    rw [if_neg h7] at hd
    by_cases h8 : e.type = "m.room.member"
    swap
    · rw [if_neg h8] at hd
      exact inv_then_prune nfc s1 room s2 o2
        (some_pair_fst hd ▸ hinv) hp
    rw [if_pos h8] at hd
    have hne0 : e.state_key ≠ "" := hsk h8
    simp only [RoomState.update_membership] at hd
    split at hd
    · exact inv_then_prune nfc s1 room s2 o2
        (some_pair_fst hd ▸ hinv) hp
    · rename_i membership hparse
      have hdisp : membership ≠ Membership.LEAVE ∧ membership ≠ Membership.BAN →
          membership_displayable
            ((parse_membership (e.content.membership.getD "")).getD .LEAVE) = true := by
        intro hnb
        by_cases hE : e.content.isEmpty = true
        · rw [if_pos hE] at hparse
          exact absurd (Option.some.inj hparse).symm hnb.1
        · rw [if_neg hE] at hparse
          rw [hparse]
          cases membership with
          | INVITE => rfl
          | JOIN => rfl
          | LEAVE => exact absurd rfl hnb.1
          | BAN => exact absurd rfl hnb.2
      cases membership with
      | INVITE =>
        obtain ⟨p, hjoin, hmap⟩ := Option.map_eq_some'.mp hd
        have hs1p : p.1 = s1 := congrArg Prod.fst hmap
        exact inv_then_prune nfc s1 room s2 o2
          (hs1p ▸ membership_join_inv nfc s e.state_key e.content room _ p.1 p.2 hinv
            (hdisp ⟨by decide, by decide⟩) (by rw [hjoin])) hp
      | JOIN =>
        obtain ⟨p, hjoin, hmap⟩ := Option.map_eq_some'.mp hd
        have hs1p : p.1 = s1 := congrArg Prod.fst hmap
        exact inv_then_prune nfc s1 room s2 o2
          (hs1p ▸ membership_join_inv nfc s e.state_key e.content room _ p.1 p.2 hinv
            (hdisp ⟨by decide, by decide⟩) (by rw [hjoin])) hp
      | LEAVE =>
        obtain ⟨p, hleave, hmap⟩ := Option.map_eq_some'.mp hd
        have hs1p : p.1 = s1 := congrArg Prod.fst hmap
        rw [← hs1p] at hp
        exact membership_leave_prune_inv nfc s e.state_key e.content room _ p.1 p.2 s2 o2
          hinv hne0 (by rw [hleave]) hp
      | BAN =>
        obtain ⟨p, hleave, hmap⟩ := Option.map_eq_some'.mp hd
        have hs1p : p.1 = s1 := congrArg Prod.fst hmap
        rw [← hs1p] at hp
        exact membership_leave_prune_inv nfc s e.state_key e.content room _ p.1 p.2 s2 o2
          hinv hne0 (by rw [hleave]) hp


/-- The empty room state satisfies the name-index invariant. -/
theorem Inv_empty (nfc : String → String) : Inv nfc {} := by
  refine ⟨?_, ?_, ?_, ?_, ?_, rfl⟩
  · intro n v hv
    exact Option.noConfusion hv
  · intro n v hv
    exact Option.noConfusion hv
  · intro n u
    constructor
    · rintro ⟨v, hv, _⟩
      exact Option.noConfusion hv
    · rintro ⟨m, hm, _⟩
      exact Option.noConfusion hm
  · intro u m hm
    exact Option.noConfusion hm
  · intro u m hm
    exact Option.noConfusion hm

/-- C1 witness: ingesting a join of `@a:x` with display name `Sam` into the
empty state (with callbacks attached) lands in an invariant-satisfying
state. -/
theorem C1_name_index_invariant_witness :
    Inv (fun x => x) (RoomState.afterDispatchPrune (fun x => x) {}
      { type := "m.room.member", sender := "@a:x", event_id := "$1",
        state_key := "@a:x",
        content := { membership := some "join", displayname := some "Sam" } }
      (some ⟨"!r:x"⟩)) :=
  C1_name_index_invariant (fun x => x) {}
    { type := "m.room.member", sender := "@a:x", event_id := "$1",
      state_key := "@a:x",
      content := { membership := some "join", displayname := some "Sam" } }
    (some ⟨"!r:x"⟩) (Inv_empty (fun x => x)) (fun _ => by decide)

/-- A one-member state for concrete instantiation: `@a:x` joined as `Sam`. -/
def exWitMember : Member :=
  { id := "@a:x", display_name := "Sam", avatar_url := "", membership := .JOIN }

/-- Concrete state holding `exWitMember` with its name indexed. -/
def exWitState : RoomState :=
  { members_by_id := fun u => if u = "@a:x" then some exWitMember else none,
    members_by_displayname := fun n => if n = "Sam" then some ["@a:x"] else none }

theorem Inv_exWitState : Inv (fun x => x) exWitState := by
  refine ⟨?_, ?_, ?_, ?_, ?_, rfl⟩
  · intro n v hv
    have hv' : (if n = "Sam" then some ["@a:x"] else none) = some v := hv
    by_cases hn : n = "Sam"
    · rw [if_pos hn] at hv'
      rw [← Option.some.inj hv']
      decide
    · rw [if_neg hn] at hv'
      exact Option.noConfusion hv'
  · intro n v hv
    have hv' : (if n = "Sam" then some ["@a:x"] else none) = some v := hv
    by_cases hn : n = "Sam"
    · rw [if_pos hn] at hv'
      rw [← Option.some.inj hv']
      decide
    · rw [if_neg hn] at hv'
      exact Option.noConfusion hv'
  · intro n u
    constructor
    · rintro ⟨v, hv, hu⟩
      have hv' : (if n = "Sam" then some ["@a:x"] else none) = some v := hv
      by_cases hn : n = "Sam"
      · rw [if_pos hn] at hv'
        rw [← Option.some.inj hv'] at hu
        have hu' : u = "@a:x" := List.mem_singleton.mp hu
        refine ⟨exWitMember, ?_, by decide, ?_, by decide⟩
        · show (if u = "@a:x" then some exWitMember else none) = some exWitMember
          rw [if_pos hu']
        · show "Sam" = n
          rw [hn]
      · rw [if_neg hn] at hv'
        exact Option.noConfusion hv'
    · rintro ⟨m, hm, hdn, hnfc, hdisp⟩
      have hm' : (if u = "@a:x" then some exWitMember else none) = some m := hm
      by_cases hu : u = "@a:x"
      · rw [if_pos hu] at hm'
        have hme : exWitMember = m := Option.some.inj hm'
        have hn : n = "Sam" := by
          rw [← hnfc, ← hme]
          rfl
        refine ⟨["@a:x"], ?_, ?_⟩
        · show (if n = "Sam" then some ["@a:x"] else none) = some ["@a:x"]
          rw [if_pos hn]
        · rw [hu]
          decide
      · rw [if_neg hu] at hm'
        exact Option.noConfusion hm'
  · intro u m hm
    have hm' : (if u = "@a:x" then some exWitMember else none) = some m := hm
    by_cases hu : u = "@a:x"
    · rw [if_pos hu] at hm'
      rw [← Option.some.inj hm', hu]
      rfl
    · rw [if_neg hu] at hm'
      exact Option.noConfusion hm'
  · intro u m hm
    have hm' : (if u = "@a:x" then some exWitMember else none) = some m := hm
    by_cases hu : u = "@a:x"
    · rw [if_pos hu] at hm'
      rw [← Option.some.inj hm']
      decide
    · rw [if_neg hu] at hm'
      exact Option.noConfusion hm'

/-- C10: the checked bucket lookup inside `member_disambiguation`.  For a
member with a non-empty display name stored in an invariant-satisfying
state, the lookup of `members_by_displayname[NFC(display_name)]` cannot
fail, so the function returns a string; but applied in any state whose index
lacks that bucket (e.g. for an already-pruned departed member), it hits the
lookup's failure branch (`at` throws, the `none` result) instead of
returning a string. -/
theorem C10_member_disambiguation_domain (nfc : String → String) (s : RoomState)
    (u : String) (m : Member) (hinv : Inv nfc s)
    (hmu : s.members_by_id u = some m) (hdn : m.display_name ≠ "") :
    (s.member_disambiguation nfc m).isSome = true ∧
    ∀ s' : RoomState, s'.members_by_displayname (nfc m.display_name) = none →
      s'.member_disambiguation nfc m = none := by
  constructor
  · have hin : InB s.members_by_displayname (nfc m.display_name) u :=
      (hinv.complete (nfc m.display_name) u).mpr
        ⟨m, hmu, hdn, rfl, hinv.displayable u m hmu⟩
    obtain ⟨v, hv, _⟩ := hin
    unfold RoomState.member_disambiguation
    rw [if_neg hdn, hv]
    rfl
  · intro s' hnone
    unfold RoomState.member_disambiguation
    rw [if_neg hdn, hnone]

/-- C10 witness: in the concrete one-member state the disambiguation of
`Sam` is defined, and in any bucketless state (e.g. the empty one, whose
instance follows) it takes the failure branch. -/
theorem C10_member_disambiguation_domain_witness :
    ((exWitState.member_disambiguation (fun x => x) exWitMember).isSome = true ∧
      ∀ s' : RoomState,
        s'.members_by_displayname ((fun x => x) exWitMember.display_name) = none →
        s'.member_disambiguation (fun x => x) exWitMember = none) :=
  C10_member_disambiguation_domain (fun x => x) exWitState "@a:x" exWitMember
    Inv_exWitState (by decide) (by decide)


/-! ## Serialization round trip (C4) -/

/-- The display-name index a receipt rebuild produces: users in
`receipts_by_user` order, bucketed by their receipt's event. -/
def receiptIndex (l : List (String × Receipt)) : String → List String :=
  fun ev => (l.filter (fun p => p.2.event = ev)).map Prod.fst

theorem alookup_append_right (a b : List (String × Receipt)) (k : String)
    (ha : alookup a k = none) : alookup (a ++ b) k = alookup b k := by
  unfold alookup at *
  rw [List.find?_append]
  cases hfa : List.find? (fun p => decide (p.1 = k)) a with
  | none => rfl
  | some p => rw [hfa] at ha; exact Option.noConfusion ha

/-- Re-inserting a fresh-keyed receipt list via `update_receipt` appends it
to the user map and appends each user to its event's bucket, in list order;
no other `Room` field is touched. -/
theorem receipts_rebuild (l : List (String × Receipt)) (base : Room)
    (hfresh : ∀ p ∈ l, alookup base.receipts_by_user p.1 = none)
    (hkeys : (l.map Prod.fst).Nodup) :
    l.foldl (fun r p => r.update_receipt p.1 p.2.event p.2.ts) base =
      { base with
        receipts_by_user := base.receipts_by_user ++ l
        receipts_by_event := fun ev =>
          base.receipts_by_event ev ++ (l.filter (fun p => p.2.event = ev)).map Prod.fst } := by
  induction l generalizing base with
  | nil =>
    cases base with
    | mk id own init st buf hc nc rbu rbe typ =>
      simp only [List.foldl_nil, List.filter_nil, List.map_nil, List.append_nil]
  | cons hd tl ih =>
    rw [List.foldl_cons]
    have hfhd : alookup base.receipts_by_user hd.1 = none := hfresh hd (List.mem_cons_self hd tl)
    have hstep : base.update_receipt hd.1 hd.2.event hd.2.ts =
        { base with
          receipts_by_user := base.receipts_by_user ++ [hd]
          receipts_by_event := Function.update base.receipts_by_event hd.2.event
            (base.receipts_by_event hd.2.event ++ [hd.1]) } := by
      unfold Room.update_receipt
      rw [hfhd]
    rw [hstep]
    rw [List.map_cons, List.nodup_cons] at hkeys
    rw [ih _ ?_ hkeys.2]
    · cases base with
      | mk id own init st buf hc nc rbu rbe typ =>
        show Room.mk id own init st buf hc nc ((rbu ++ [hd]) ++ tl)
            (fun ev => Function.update rbe hd.2.event (rbe hd.2.event ++ [hd.1]) ev ++
              (tl.filter (fun p => p.2.event = ev)).map Prod.fst) typ =
          Room.mk id own init st buf hc nc (rbu ++ hd :: tl)
            (fun ev => rbe ev ++ ((hd :: tl).filter (fun p => p.2.event = ev)).map Prod.fst) typ
        refine congrArg₂ (fun a b => Room.mk id own init st buf hc nc a b typ) ?_ ?_
        · rw [List.append_assoc, List.singleton_append]
        · funext ev
          rw [List.filter_cons]
          by_cases hev : hd.2.event = ev
          · rw [Function.update_apply, if_pos hev.symm]
            rw [if_pos (by rw [decide_eq_true_eq]; exact hev), List.map_cons]
            rw [← hev, List.append_assoc, List.singleton_append]
          · rw [Function.update_apply, if_neg (fun hc2 => hev hc2.symm)]
            rw [if_neg (by rw [decide_eq_true_eq]; exact hev)]
    · intro p hp
      show alookup (base.receipts_by_user ++ [hd]) p.1 = none
      rw [alookup_append_right _ _ _ (hfresh p (List.mem_cons_of_mem hd hp))]
      have hne : (decide (hd.1 = p.1)) = false := by
        rw [decide_eq_false_iff_not]
        intro hpe
        exact hkeys.1 (by rw [hpe]; exact List.mem_map_of_mem Prod.fst hp)
      unfold alookup
      rw [List.find?_cons, hne]
      rfl


/-- C4 (amended): the round trip holds exactly on the saved window.  For a
room whose live window is at most one batch, whose member database
regenerates its saved `initial_state`, whose current state is what replaying
the saved batch from `initial_state` yields, whose receipt keys are distinct
with the event index in canonical (user-map) order, and whose transient
typing list is clear, reconstruction reproduces the room exactly. -/
theorem C4_round_trip (nfc : String → String) (r : Room) (db : List (String × Member))
    (hload : RoomState.load nfc r.initial_state.to_json db = some r.initial_state)
    (hbuf : (r.buffer = [] ∧ r.state = r.initial_state) ∨
      (∃ b, r.buffer = [b] ∧ replayEvents nfc r.initial_state b.events = some r.state))
    (hkeys : (r.receipts_by_user.map Prod.fst).Nodup)
    (hidx : r.receipts_by_event = receiptIndex r.receipts_by_user)
    (htyp : r.typing = []) :
    Room.from_json nfc r.to_json db r.id r.own_user = some r := by
  obtain ⟨rid, rown, rinit, rstate, rbuf, rhc, rnc, rru, rre, rtyp⟩ := r
  have hload2 : RoomState.load nfc rinit.to_json db = some rinit := hload
  have hkeys2 : (rru.map Prod.fst).Nodup := hkeys
  have hidx2 : rre = receiptIndex rru := hidx
  subst hidx2
  have htyp2 : rtyp = [] := htyp
  subst htyp2
  rcases hbuf with ⟨hb, hs⟩ | ⟨b, hb, hrep⟩
  · have hb2 : rbuf = [] := hb
    subst hb2
    have hs2 : rstate = rinit := hs
    subst hs2
    show Option.bind (RoomState.load nfc rstate.to_json db) (fun init =>
        Option.bind (some (([] : List Batch), init)) (fun y =>
          some (List.foldl (fun a q => a.update_receipt q.1 q.2.event q.2.ts)
            (Room.mk rid rown init y.2 y.1 rhc rnc [] (fun _ => []) []) rru))) =
      some (Room.mk rid rown rstate rstate [] rhc rnc rru (receiptIndex rru) [])
    rw [hload2]
    simp only [Option.some_bind]
    rw [receipts_rebuild rru (Room.mk rid rown rstate rstate [] rhc rnc [] (fun _ => []) [])
      (fun p hp => rfl) hkeys2]
    show some (Room.mk rid rown rstate rstate [] rhc rnc ([] ++ rru)
        (fun ev => [] ++ (rru.filter (fun p => p.2.event = ev)).map Prod.fst) []) =
      some (Room.mk rid rown rstate rstate [] rhc rnc rru (receiptIndex rru) [])
    refine congrArg some
      (congrArg₂ (fun a c => Room.mk rid rown rstate rstate [] rhc rnc a c []) ?_ ?_)
    · exact List.nil_append rru
    · funext ev
      exact List.nil_append _
  · have hb2 : rbuf = [b] := hb
    subst hb2
    have hrep2 : replayEvents nfc rinit b.events = some rstate := hrep
    show Option.bind (RoomState.load nfc rinit.to_json db) (fun init =>
        Option.bind (replayEvents nfc init b.events) (fun st =>
          Option.bind (some ([b], st)) (fun y =>
            some (List.foldl (fun a q => a.update_receipt q.1 q.2.event q.2.ts)
              (Room.mk rid rown init y.2 y.1 rhc rnc [] (fun _ => []) []) rru)))) =
      some (Room.mk rid rown rinit rstate [b] rhc rnc rru (receiptIndex rru) [])
    rw [hload2]
    simp only [Option.some_bind]
    rw [hrep2]
    simp only [Option.some_bind]
    rw [receipts_rebuild rru (Room.mk rid rown rinit rstate [b] rhc rnc [] (fun _ => []) [])
      (fun p hp => rfl) hkeys2]
    show some (Room.mk rid rown rinit rstate [b] rhc rnc ([] ++ rru)
        (fun ev => [] ++ (rru.filter (fun p => p.2.event = ev)).map Prod.fst) []) =
      some (Room.mk rid rown rinit rstate [b] rhc rnc rru (receiptIndex rru) [])
    refine congrArg some
      (congrArg₂ (fun a c => Room.mk rid rown rinit rstate [b] rhc rnc a c []) ?_ ?_)
    · exact List.nil_append rru
    · funext ev
      exact List.nil_append _

/-- An inert timeline event for the counterexample. -/
def exEvent1 : Event :=
  { type := "m.room.message", sender := "@b:x", event_id := "$m1", state_key := "",
    content := {} }

/-- A second inert timeline event. -/
def exEvent2 : Event :=
  { type := "m.room.message", sender := "@b:x", event_id := "$m2", state_key := "",
    content := {} }

/-- A room whose live window holds two timeline batches. -/
def exTwoBatchRoom : Room :=
  { id := "!r:x", own_user := "@a:x",
    buffer := [⟨"t1", [exEvent1]⟩, ⟨"t2", [exEvent2]⟩] }

/-- C4 counterexample: `Room::to_json` stores only `buffer_.back()`, so a
room with two batches does not survive the round trip: the reconstructed
buffer holds only the second batch. -/
theorem C4_round_trip_counterexample :
    (Room.from_json (fun x => x) (Room.to_json exTwoBatchRoom) [] exTwoBatchRoom.id
        exTwoBatchRoom.own_user).map (fun q => q.buffer) ≠
      some exTwoBatchRoom.buffer := by decide

/-- A room with a single saved message batch. -/
def exOneBatchRoom : Room :=
  { id := "!r:x", own_user := "@a:x", buffer := [⟨"t2", [exEvent2]⟩] }

/-- C4 witness: an empty room with one saved message batch round-trips
exactly. -/
theorem C4_round_trip_witness :
    Room.from_json (fun x => x) (Room.to_json exOneBatchRoom) []
      exOneBatchRoom.id exOneBatchRoom.own_user = some exOneBatchRoom :=
  C4_round_trip (fun x => x) exOneBatchRoom []
    rfl (Or.inr ⟨⟨"t2", [exEvent2]⟩, rfl, rfl⟩) (by decide) (by funext ev; rfl) rfl

end matrix
